import Mathlib

/-!
# dtmdriver-gozero: the locator/method splitter and the registration dispatcher

A shallow embedding of `src/driver.go` (`zeroDriver.ParseServerMethod`,
`zeroDriver.RegisterService`) together with the parts of the Go standard library that
decide what these two functions return: `strings`, `strconv.ParseUint` and `net/url`
(`Parse`, `URL.String`, `ParseQuery`), transcribed from the Go 1.22 sources.

Conventions.
* A Go `string` is a sequence of bytes.  It is represented by `Str = List Char`, the
  character with code `b` standing for the byte `b`.  Every character class of the
  embedded library code is a class of ASCII bytes, and every byte `≥ 0x80` is treated
  uniformly by it, so the functions below are total on all of `List Char`.
* A Go `int` index is an `Int`; "not found" is `-1` as in Go.
* A run-time panic (slice bounds or index out of range) is the result `Run.panic`.
  Every slice and index expression of `driver.go` goes through the checked operations
  `sliceFrom`, `sliceTo` and `indexAt`.
-/

namespace GoZero

/-- A Go string: a sequence of bytes, one `Char` per byte. -/
abbrev Str := List Char

/-- The result of running Go code that may panic. -/
inductive Run (α : Type) where
  | panic : Run α
  | done : α → Run α
deriving DecidableEq, Repr

/-- Sequencing of possibly panicking computations. -/
def Run.bind {α β : Type} (x : Run α) (f : α → Run β) : Run β :=
  match x with
  | Run.panic => Run.panic
  | Run.done a => f a

instance : Monad Run where
  pure := Run.done
  bind := Run.bind

/-- Go `s[i:]`: panics unless `0 ≤ i ≤ len(s)`. -/
def sliceFrom (s : Str) (i : Int) : Run Str :=
  if 0 ≤ i ∧ i ≤ (s.length : Int) then Run.done (s.drop i.toNat) else Run.panic

/-- Go `s[:i]`: panics unless `0 ≤ i ≤ len(s)`. -/
def sliceTo (s : Str) (i : Int) : Run Str :=
  if 0 ≤ i ∧ i ≤ (s.length : Int) then Run.done (s.take i.toNat) else Run.panic

/-- Go `a[i]` on a slice: panics unless `0 ≤ i < len(a)`. -/
def indexAt {α : Type} (a : List α) (i : Nat) : Run α :=
  match a.get? i with
  | some x => Run.done x
  | none => Run.panic

/-! ## Package `strings` -/

namespace strings

/-- Position of the first occurrence of `substr` in `s`, if any. -/
def indexOpt (substr : Str) : Str → Option Nat
  | [] => if substr.isEmpty then some 0 else none
  | c :: cs =>
    if substr.isPrefixOf (c :: cs) then some 0
    else (indexOpt substr cs).map (· + 1)

/-- Position of the last occurrence of `substr` in `s`, if any. -/
def lastIndexOpt (substr : Str) : Str → Option Nat
  | [] => if substr.isEmpty then some 0 else none
  | c :: cs =>
    match lastIndexOpt substr cs with
    | some i => some (i + 1)
    | none => if substr.isPrefixOf (c :: cs) then some 0 else none

/-- Go `strings.Index(s, substr)`: index of the first instance, or `-1`. -/
def Index (s substr : Str) : Int :=
  match indexOpt substr s with
  | some i => (i : Int)
  | none => -1

/-- Go `strings.IndexByte(s, c)`: index of the first instance of the byte, or `-1`. -/
def IndexByte (s : Str) (c : Char) : Int := Index s [c]

/-- Go `strings.LastIndex(s, substr)`: index of the last instance, or `-1`. -/
def LastIndex (s substr : Str) : Int :=
  match lastIndexOpt substr s with
  | some i => (i : Int)
  | none => -1

/-- Go `strings.Contains(s, substr)`, i.e. `Index(s, substr) >= 0`. -/
def Contains (s substr : Str) : Bool := (indexOpt substr s).isSome

/-- Go `strings.HasPrefix(s, p)`. -/
def HasPrefix (s p : Str) : Bool := p.isPrefixOf s

/-- Go `strings.HasSuffix(s, p)`. -/
def HasSuffix (s p : Str) : Bool := p.isSuffixOf s

/-- Go `strings.TrimPrefix(s, p)`. -/
def TrimPrefix (s p : Str) : Str := if HasPrefix s p then s.drop p.length else s

/-- Go `strings.Count(s, substr)` for a one-byte `substr`: the number of occurrences
of that byte. -/
def Count (s : Str) (c : Char) : Nat := s.count c

/-- Go `strings.Cut(s, sep)`: the text before and after the first instance of `sep`,
and whether `sep` was found. -/
def Cut (s sep : Str) : Str × Str × Bool :=
  match indexOpt sep s with
  | some i => (s.take i, s.drop (i + sep.length), true)
  | none => (s, [], false)

/-- Go `strings.Split(s, sep)` for a one-byte separator: the pieces of `s` between
the occurrences of the byte (one piece more than there are occurrences). -/
def Split : Str → Char → List Str
  | [], _ => [[]]
  | x :: xs, sep =>
    if x = sep then [] :: Split xs sep
    else
      match Split xs sep with
      | [] => [[x]]
      | p :: ps => (x :: p) :: ps

/-- Lower-case form of an ASCII byte; other bytes are unchanged. -/
def lowerByte (c : Char) : Char :=
  if 'A' ≤ c ∧ c ≤ 'Z' then Char.ofNat (c.toNat + 32) else c

/-- Go `strings.ToLower(s)` on ASCII text (the only use is on a URL scheme, which
`getScheme` restricts to ASCII letters, digits, `+`, `-` and `.`). -/
def ToLower (s : Str) : Str := s.map lowerByte

end strings

/-! ## Package `strconv` -/

namespace strconv

/-- The largest `uint64`. -/
def maxUint64 : Nat := 2 ^ 64 - 1

/-- The digit loop of `strconv.ParseUint(s, 10, 64)`: `n` is the value read so far.
Returns the value and whether an error is reported (`true`: syntax or range error). -/
def parseUintLoop : Str → Nat → Nat × Bool
  | [], n => (n, false)
  | c :: cs, n =>
    if '0' ≤ c ∧ c ≤ '9' then
      let d := c.toNat - '0'.toNat
      -- `n >= cutoff` with `cutoff = maxUint64/10 + 1`: `n*10` overflows
      if n ≥ maxUint64 / 10 + 1 then (maxUint64, true)
      else
        let n1 := n * 10 + d
        -- `n1 < n || n1 > maxVal`: `n*10 + d` overflows
        if n1 > maxUint64 then (maxUint64, true)
        else parseUintLoop cs n1
    else
      -- a letter is a digit `≥ 10 = base`, anything else is no digit: syntax error
      (0, true)

/-- Go `strconv.ParseUint(s, 10, 64)`: the value, and whether the error is non-nil.
The empty string is a syntax error; on a syntax error the value is `0`, on a range
error it is `maxUint64`. -/
def ParseUint (s : Str) : Nat × Bool :=
  if s = [] then (0, true) else parseUintLoop s 0

end strconv

/-! ## Package `net/url` -/

namespace url

/-- The `encoding` modes of `net/url`. -/
inductive encoding where
  | encodePath
  | encodePathSegment
  | encodeHost
  | encodeZone
  | encodeUserPassword
  | encodeQueryComponent
  | encodeFragment
deriving DecidableEq, Repr

open encoding

/-- The errors `net/url` builds while parsing (the `Err` field of `*url.Error`). -/
inductive ParseErr where
  /-- "net/url: invalid control character in URL" -/
  | invalidControlCharacter
  /-- "empty url" -/
  | emptyURL
  /-- "missing protocol scheme" -/
  | missingProtocolScheme
  /-- "invalid URI for request" -/
  | invalidURIForRequest
  /-- "first path segment in URL cannot contain colon" -/
  | firstPathSegmentColon
  /-- "missing ']' in host" -/
  | missingBracketInHost
  /-- "invalid port %q after host" -/
  | invalidPort (colonPort : Str)
  /-- "net/url: invalid userinfo" -/
  | invalidUserinfo
  /-- `EscapeError(s)`: "invalid URL escape %q" -/
  | EscapeError (s : Str)
  /-- `InvalidHostError(s)`: "invalid character %q in host name" -/
  | InvalidHostError (s : Str)
deriving DecidableEq, Repr

/-- Go `*url.Error`: the operation, the URL text and the underlying error. -/
structure Error where
  Op : String
  URL : Str
  Err : ParseErr
deriving DecidableEq, Repr

/-- Go `ishex`. -/
def ishex (c : Char) : Bool :=
  decide (('0' ≤ c ∧ c ≤ '9') ∨ ('a' ≤ c ∧ c ≤ 'f') ∨ ('A' ≤ c ∧ c ≤ 'F'))

/-- Go `unhex`: the value of a hexadecimal digit, `0` for any other byte. -/
def unhex (c : Char) : Nat :=
  if '0' ≤ c ∧ c ≤ '9' then c.toNat - '0'.toNat
  else if 'a' ≤ c ∧ c ≤ 'f' then c.toNat - 'a'.toNat + 10
  else if 'A' ≤ c ∧ c ≤ 'F' then c.toNat - 'A'.toNat + 10
  else 0

/-- ASCII letters and digits: RFC 3986 §2.3 unreserved characters (alphanum). -/
def isAlnum (c : Char) : Bool :=
  decide (('a' ≤ c ∧ c ≤ 'z') ∨ ('A' ≤ c ∧ c ≤ 'Z') ∨ ('0' ≤ c ∧ c ≤ '9'))

/-- The bytes `shouldEscape` lets through unescaped in a host or zone besides the
unreserved ones: sub-delims, `:`, `[`, `]`, `<`, `>` and `"`. -/
def hostAllowed : List Char :=
  ['!', '$', '&', Char.ofNat 39, '(', ')', '*', '+', ',', ';', '=', ':', '[', ']', '<', '>', '"']

/-- RFC 3986 §2.2 reserved characters, as listed in `shouldEscape`. -/
def reservedChars : List Char :=
  ['$', '&', '+', ',', '/', ':', ';', '=', '?', '@']

/-- Go `shouldEscape(c, mode)`: whether the byte must be escaped when it appears in
the given part of a URL. -/
def shouldEscape (c : Char) (mode : encoding) : Bool :=
  if isAlnum c then false
  else if (mode = encodeHost ∨ mode = encodeZone) ∧ c ∈ hostAllowed then false
  else if c ∈ ['-', '_', '.', '~'] then false
  else if c ∈ reservedChars ∧ mode = encodePath then decide (c = '?')
  else if c ∈ reservedChars ∧ mode = encodePathSegment then
    decide (c = '/' ∨ c = ';' ∨ c = ',' ∨ c = '?')
  else if c ∈ reservedChars ∧ mode = encodeUserPassword then
    decide (c = '@' ∨ c = '/' ∨ c = '?' ∨ c = ':')
  else if c ∈ reservedChars ∧ mode = encodeQueryComponent then true
  else if c ∈ reservedChars ∧ mode = encodeFragment then false
  -- a reserved byte in host or zone mode leaves the inner switch without a result
  else if mode = encodeFragment ∧ c ∈ ['!', '(', ')', '*'] then false
  else true

/-- The first loop of Go `unescape`: checks that every `%` starts a well-formed
escape (and, in a host, that no byte needs escaping); the first error if any. -/
def unescapeCheck (mode : encoding) : Str → Option ParseErr
  | [] => none
  | c :: rest =>
    if c = '%' then
      match rest with
      | a :: b :: rest2 =>
        if ¬ (ishex a ∧ ishex b) then some (ParseErr.EscapeError [c, a, b])
        else if mode = encodeHost ∧ unhex a < 8 ∧ [c, a, b] ≠ ['%', '2', '5'] then
          some (ParseErr.EscapeError [c, a, b])
        else if mode = encodeZone ∧ [c, a, b] ≠ ['%', '2', '5']
            ∧ Char.ofNat (unhex a * 16 + unhex b) ≠ ' '
            ∧ shouldEscape (Char.ofNat (unhex a * 16 + unhex b)) encodeHost then
          some (ParseErr.EscapeError [c, a, b])
        else unescapeCheck mode rest2
      | _ => some (ParseErr.EscapeError (c :: rest))
    else if c = '+' then unescapeCheck mode rest
    else if (mode = encodeHost ∨ mode = encodeZone) ∧ c.toNat < 0x80
        ∧ shouldEscape c encodeHost then
      some (ParseErr.InvalidHostError [c])
    else unescapeCheck mode rest

/-- The second loop of Go `unescape`: replaces each `%XY` by the byte it encodes
and, in a query component, each `+` by a space. -/
def unescapeCopy (mode : encoding) : Str → Str
  | [] => []
  | c :: rest =>
    if c = '%' then
      match rest with
      | a :: b :: rest2 => Char.ofNat (unhex a * 16 + unhex b) :: unescapeCopy mode rest2
      | _ => []
    else if c = '+' then
      (if mode = encodeQueryComponent then ' ' else '+') :: unescapeCopy mode rest
    else c :: unescapeCopy mode rest

/-- Go `unescape(s, mode)`.  (Go returns `s` itself when it holds no `%` and no `+`
to convert; the copying loop leaves such an `s` unchanged.) -/
def unescape (s : Str) (mode : encoding) : Except ParseErr Str :=
  match unescapeCheck mode s with
  | some e => Except.error e
  | none => Except.ok (unescapeCopy mode s)

/-- The digit `"0123456789ABCDEF"[n]`. -/
def upperhex (n : Nat) : Char :=
  if n < 10 then Char.ofNat ('0'.toNat + n) else Char.ofNat ('A'.toNat + (n - 10))

/-- Go `escape(s, mode)`: every byte that `shouldEscape` flags becomes `%XY`, except
that a space in a query component becomes `+`. -/
def escape : Str → encoding → Str
  | [], _ => []
  | c :: rest, mode =>
    if c = ' ' ∧ mode = encodeQueryComponent then '+' :: escape rest mode
    else if shouldEscape c mode then
      '%' :: upperhex (c.toNat / 16 % 16) :: upperhex (c.toNat % 16) :: escape rest mode
    else c :: escape rest mode

/-- Go `validEncoded(s, mode)`: whether `s` is a valid encoded path or fragment. -/
def validEncoded (s : Str) (mode : encoding) : Bool :=
  s.all (fun c =>
    if c ∈ ['!', '$', '&', Char.ofNat 39, '(', ')', '*', '+', ',', ';', '=', ':', '@'] then true
    else if c ∈ ['[', ']'] then true
    else if c = '%' then true
    else ! shouldEscape c mode)

/-- Go `url.Userinfo`. -/
structure Userinfo where
  username : Str
  password : Str
  passwordSet : Bool
deriving DecidableEq, Repr

/-- Go `url.URL`; `User = none` is the nil `*Userinfo`. -/
structure URL where
  Scheme : Str := []
  Opaque : Str := []
  User : Option Userinfo := none
  Host : Str := []
  Path : Str := []
  RawPath : Str := []
  OmitHost : Bool := false
  ForceQuery : Bool := false
  RawQuery : Str := []
  Fragment : Str := []
  RawFragment : Str := []
deriving DecidableEq, Repr

/-- Go `stringContainsCTLByte`: an ASCII control byte (`< 0x20` or `0x7f`) occurs. -/
def stringContainsCTLByte (s : Str) : Bool :=
  s.any (fun b => decide (b.toNat < 0x20 ∨ b.toNat = 0x7f))

/-- The loop of Go `getScheme`, at byte `i` of `rawURL` with `rest = rawURL[i:]`. -/
def getSchemeLoop (rawURL : Str) : Str → Nat → Except ParseErr (Str × Str)
  | [], _ => Except.ok ([], rawURL)
  | c :: cs, i =>
    if ('a' ≤ c ∧ c ≤ 'z') ∨ ('A' ≤ c ∧ c ≤ 'Z') then getSchemeLoop rawURL cs (i + 1)
    else if ('0' ≤ c ∧ c ≤ '9') ∨ c = '+' ∨ c = '-' ∨ c = '.' then
      if i = 0 then Except.ok ([], rawURL) else getSchemeLoop rawURL cs (i + 1)
    else if c = ':' then
      if i = 0 then Except.error ParseErr.missingProtocolScheme
      else Except.ok (rawURL.take i, cs)
    else Except.ok ([], rawURL)

/-- Go `getScheme(rawURL)`: splits off a leading `scheme:`; the scheme is empty when
there is none. -/
def getScheme (rawURL : Str) : Except ParseErr (Str × Str) :=
  getSchemeLoop rawURL rawURL 0

/-- The bytes `getScheme` accepts inside a scheme: letters, digits, `+`, `-`, `.`. -/
def isSchemeByte (c : Char) : Bool :=
  decide ((('a' ≤ c ∧ c ≤ 'z') ∨ ('A' ≤ c ∧ c ≤ 'Z')) ∨
    (('0' ≤ c ∧ c ≤ '9') ∨ c = '+' ∨ c = '-' ∨ c = '.'))

/-- A scheme name as `getScheme` recognises it: a letter followed by scheme bytes. -/
def isSchemeName (s : Str) : Bool :=
  match s with
  | [] => false
  | c :: cs => decide (('a' ≤ c ∧ c ≤ 'z') ∨ ('A' ≤ c ∧ c ≤ 'Z')) && cs.all isSchemeByte

/-- Go `validOptionalPort(port)`: `port` is empty or `:` followed by digits. -/
def validOptionalPort (port : Str) : Bool :=
  match port with
  | [] => true
  | c :: ds => decide (c = ':') && ds.all (fun b => decide ('0' ≤ b ∧ b ≤ '9'))

/-- Go `validUserinfo(s)`. -/
def validUserinfo (s : Str) : Bool :=
  s.all (fun r =>
    isAlnum r ||
      decide (r ∈ ['-', '.', '_', ':', '~', '!', '$', '&', Char.ofNat 39, '(', ')', '*', '+', ',',
        ';', '=', '%', '@']))

/-- Go `parseHost(host)`. -/
def parseHost (host : Str) : Except ParseErr Str :=
  if strings.HasPrefix host ['['] then
    match strings.lastIndexOpt [']'] host with
    | none => Except.error ParseErr.missingBracketInHost
    | some i =>
      let colonPort := host.drop (i + 1)
      if ¬ validOptionalPort colonPort then Except.error (ParseErr.invalidPort colonPort)
      else
        match strings.indexOpt ['%', '2', '5'] (host.take i) with
        | some zone =>
          match unescape (host.take zone) encodeHost with
          | Except.error e => Except.error e
          | Except.ok host1 =>
            match unescape ((host.take i).drop zone) encodeZone with
            | Except.error e => Except.error e
            | Except.ok host2 =>
              match unescape (host.drop i) encodeHost with
              | Except.error e => Except.error e
              | Except.ok host3 => Except.ok (host1 ++ host2 ++ host3)
        | none => unescape host encodeHost
  else
    match strings.lastIndexOpt [':'] host with
    | some i =>
      let colonPort := host.drop i
      if ¬ validOptionalPort colonPort then Except.error (ParseErr.invalidPort colonPort)
      else unescape host encodeHost
    | none => unescape host encodeHost

/-- The user-info part of Go `parseAuthority`, for the text before the last `@`. -/
def parseUserinfo (userinfo : Str) : Except ParseErr Userinfo :=
  if ¬ validUserinfo userinfo then Except.error ParseErr.invalidUserinfo
  else if ¬ strings.Contains userinfo [':'] then
    match unescape userinfo encodeUserPassword with
    | Except.error e => Except.error e
    | Except.ok name => Except.ok { username := name, password := [], passwordSet := false }
  else
    match unescape (strings.Cut userinfo [':']).1 encodeUserPassword with
    | Except.error e => Except.error e
    | Except.ok name =>
      match unescape (strings.Cut userinfo [':']).2.1 encodeUserPassword with
      | Except.error e => Except.error e
      | Except.ok pw => Except.ok { username := name, password := pw, passwordSet := true }

/-- Go `parseAuthority(authority)`: the optional user-info and the host. -/
def parseAuthority (authority : Str) : Except ParseErr (Option Userinfo × Str) :=
  match strings.lastIndexOpt ['@'] authority with
  | none =>
    match parseHost authority with
    | Except.error e => Except.error e
    | Except.ok host => Except.ok (none, host)
  | some i =>
    match parseHost (authority.drop (i + 1)) with
    | Except.error e => Except.error e
    | Except.ok host =>
      match parseUserinfo (authority.take i) with
      | Except.error e => Except.error e
      | Except.ok user => Except.ok (some user, host)

/-- Go `(*URL).setPath(p)`: `Path` is the unescaped `p`; `RawPath` is kept only when
the default escaping of `Path` differs from `p`. -/
def setPath (u : URL) (p : Str) : Except ParseErr URL :=
  match unescape p encodePath with
  | Except.error e => Except.error e
  | Except.ok path =>
    Except.ok { u with Path := path, RawPath := if p = escape path encodePath then [] else p }

/-- Go `(*URL).setFragment(f)`. -/
def setFragment (u : URL) (f : Str) : Except ParseErr URL :=
  match unescape f encodeFragment with
  | Except.error e => Except.error e
  | Except.ok frag =>
    Except.ok { u with
      Fragment := frag, RawFragment := if f = escape frag encodeFragment then [] else f }

/-- The part of Go `parse` after the scheme and the query have been split off:
authority and path. -/
def parseRest (url : URL) (rest : Str) (viaRequest : Bool) : Except ParseErr URL :=
  if (url.Scheme ≠ [] ∨ (¬ viaRequest ∧ ¬ strings.HasPrefix rest ['/', '/', '/']))
      ∧ strings.HasPrefix rest ['/', '/'] then
    let authority0 := rest.drop 2
    let authority :=
      match strings.indexOpt ['/'] authority0 with
      | some i => authority0.take i
      | none => authority0
    let rest2 :=
      match strings.indexOpt ['/'] authority0 with
      | some i => authority0.drop i
      | none => []
    match parseAuthority authority with
    | Except.error e => Except.error e
    | Except.ok uh => setPath { url with User := uh.1, Host := uh.2 } rest2
  else if url.Scheme ≠ [] ∧ strings.HasPrefix rest ['/'] then
    setPath { url with OmitHost := true } rest
  else setPath url rest

/-- Go `parse(rawURL, viaRequest)`: parses a URL without fragment. -/
def parse (rawURL : Str) (viaRequest : Bool) : Except ParseErr URL :=
  if stringContainsCTLByte rawURL then Except.error ParseErr.invalidControlCharacter
  else if rawURL = [] ∧ viaRequest then Except.error ParseErr.emptyURL
  else if rawURL = ['*'] then Except.ok { Path := ['*'] }
  else
    match getScheme rawURL with
    | Except.error e => Except.error e
    | Except.ok sr =>
      let scheme := strings.ToLower sr.1
      let force : Bool := strings.HasSuffix sr.2 ['?'] && decide (strings.Count sr.2 '?' = 1)
      let rest : Str := if force then sr.2.take (sr.2.length - 1) else (strings.Cut sr.2 ['?']).1
      let rawQuery : Str := if force then [] else (strings.Cut sr.2 ['?']).2.1
      let url : URL := { Scheme := scheme, ForceQuery := force, RawQuery := rawQuery }
      if ¬ strings.HasPrefix rest ['/'] then
        if scheme ≠ [] then Except.ok { url with Opaque := rest }
        else if viaRequest then Except.error ParseErr.invalidURIForRequest
        else if strings.Contains (strings.Cut rest ['/']).1 [':'] then
          Except.error ParseErr.firstPathSegmentColon
        else parseRest url rest viaRequest
      else parseRest url rest viaRequest

/-- Go `url.Parse(rawURL)`: cuts off the fragment, parses the rest, then sets the
fragment. -/
def Parse (rawURL : Str) : Except Error URL :=
  let u := (strings.Cut rawURL ['#']).1
  let frag := (strings.Cut rawURL ['#']).2.1
  match parse u false with
  | Except.error e => Except.error { Op := "parse", URL := u, Err := e }
  | Except.ok url =>
    if frag = [] then Except.ok url
    else
      match setFragment url frag with
      | Except.error e => Except.error { Op := "parse", URL := rawURL, Err := e }
      | Except.ok url2 => Except.ok url2

/-- The test `p, err := unescape(raw, mode); err == nil && p == want` shared by
`EscapedPath` and `EscapedFragment`. -/
def unescapesTo (raw : Str) (mode : encoding) (want : Str) : Bool :=
  match unescape raw mode with
  | Except.ok p => decide (p = want)
  | Except.error _ => false

/-- Go `(*URL).EscapedPath()`. -/
def URL.EscapedPath (u : URL) : Str :=
  if u.RawPath ≠ [] ∧ validEncoded u.RawPath encodePath
      ∧ unescapesTo u.RawPath encodePath u.Path then u.RawPath
  else if u.Path = ['*'] then ['*']
  else escape u.Path encodePath

/-- Go `(*URL).EscapedFragment()`. -/
def URL.EscapedFragment (u : URL) : Str :=
  if u.RawFragment ≠ [] ∧ validEncoded u.RawFragment encodeFragment
      ∧ unescapesTo u.RawFragment encodeFragment u.Fragment then u.RawFragment
  else escape u.Fragment encodeFragment

/-- Go `(*Userinfo).String()`. -/
def Userinfo.String (u : Userinfo) : Str :=
  escape u.username encodeUserPassword ++
    (if u.passwordSet then ':' :: escape u.password encodeUserPassword else [])

/-- The authority part written by Go `(*URL).String()`: `//`, user-info and host. -/
def URL.authorityString (u : URL) : Str :=
  if u.Scheme ≠ [] ∨ u.Host ≠ [] ∨ u.User ≠ none then
    if u.OmitHost ∧ u.Host = [] ∧ u.User = none then []
    else
      (if u.Host ≠ [] ∨ u.Path ≠ [] ∨ u.User ≠ none then ['/', '/'] else []) ++
      (match u.User with
        | some ui => ui.String ++ ['@']
        | none => []) ++
      (if u.Host ≠ [] then escape u.Host encodeHost else [])
  else []

/-- Go `(*URL).String()`: reassembles the URL into a string. -/
def URL.String (u : URL) : Str :=
  let buf1 : Str := if u.Scheme ≠ [] then u.Scheme ++ [':'] else []
  let buf2 : Str :=
    if u.Opaque ≠ [] then buf1 ++ u.Opaque
    else
      let buf3 := buf1 ++ u.authorityString
      let path := u.EscapedPath
      let buf4 := if path ≠ [] ∧ path.head? ≠ some '/' ∧ u.Host ≠ [] then buf3 ++ ['/'] else buf3
      let buf5 :=
        if buf4 = [] ∧ strings.Contains (strings.Cut path ['/']).1 [':'] then buf4 ++ ['.', '/']
        else buf4
      buf5 ++ path
  let buf6 := if u.ForceQuery ∨ u.RawQuery ≠ [] then buf2 ++ '?' :: u.RawQuery else buf2
  if u.Fragment ≠ [] then buf6 ++ '#' :: u.EscapedFragment else buf6

/-- Go `url.Values`, as the list of `(key, value)` pairs in the order they were
added: `m[key]` is the list of the values paired with `key`. -/
abbrev Values := List (Str × Str)

/-- Go `Values.Get(key)`: the first value associated with `key`, or `""`. -/
def Values.Get (v : Values) (key : Str) : Str :=
  match v.find? (fun kv => kv.1 = key) with
  | some kv => kv.2
  | none => []

/-- Go `QueryUnescape(s)`. -/
def QueryUnescape (s : Str) : Except ParseErr Str := unescape s encodeQueryComponent

/-- One iteration of the loop of Go `parseQuery`, for the text `key` before the next
`&`: the pair it adds, if any (none for an empty setting, one holding `;`, or one
with a malformed escape). -/
def parseQueryPair (key : Str) : Option (Str × Str) :=
  if strings.Contains key [';'] then none
  else if key = [] then none
  else
    match QueryUnescape (strings.Cut key ['=']).1 with
    | Except.error _ => none
    | Except.ok k =>
      match QueryUnescape (strings.Cut key ['=']).2.1 with
      | Except.error _ => none
      | Except.ok v => some (k, v)

/-- Go `url.ParseQuery(query)`, the values only (`driver.go` drops the error).  The
loop cuts `query` at each `&`; the pieces it visits are those of
`strings.Split(query, "&")`, in order. -/
def ParseQuery (query : Str) : Values :=
  if query = [] then []
  else (strings.Split query '&').filterMap parseQueryPair

end url

/-! ## `driver.go` -/

/-- The constant `kindEtcd`. -/
def kindEtcd : Str := "etcd".toList

/-- The constant `kindDiscov`. -/
def kindDiscov : Str := "discov".toList

/-- The constant `kindConsul`. -/
def kindConsul : Str := "consul".toList

/-- The constant `kindNacos`. -/
def kindNacos : Str := "nacos".toList

/-- The error values `driver.go` returns. -/
inductive DriverError where
  /-- The error of `url.Parse`, returned as it is. -/
  | parse (e : url.Error)
  /-- `fmt.Errorf("invalid path")` -/
  | invalidPath
  /-- `fmt.Errorf("gRPC method part missing or empty")` -/
  | methodMissing
  /-- `fmt.Errorf("bad url: '%s'. no '/' found", uri)` -/
  | noSlashFound (uri : Str)
  /-- `fmt.Errorf("unknown scheme: %s", u.Scheme)` -/
  | unknownScheme (scheme : Str)
  /-- An error returned by a registration backend. -/
  | backend (msg : Str)
deriving DecidableEq, Repr

/-- The Go result triple `(server string, method string, err error)`; `none` is the
nil error. -/
abbrev SplitResult := Str × Str × Option DriverError

/-- Lines 154-157 of `ParseServerMethod`: the consul strategy fails on an empty
method and otherwise returns the reassembled URL with the method. -/
def consulFinish (u : url.URL) (method : Str) : SplitResult :=
  if method = [] then ([], [], some DriverError.methodMissing)
  else (u.String, method, none)

/-- Lines 128-157 of `ParseServerMethod`: the strategy for an input that contains
"consul". -/
def consulStrategy (uri : Str) : Run SplitResult :=
  match url.Parse uri with
  | Except.error e => Run.done ([], [], some (DriverError.parse e))
  | Except.ok u =>
    if u.RawQuery ≠ [] then
      -- With query: split at FIRST '/' in RawQuery
      let i := strings.Index u.RawQuery ['/']
      if i ≥ 0 then do
        let method ← sliceFrom u.RawQuery (i + 1)
        let rawQuery ← sliceTo u.RawQuery i
        pure (consulFinish { u with RawQuery := rawQuery } method)
      else pure (consulFinish u [])
    else
      -- Without query: service name is the FIRST path segment
      let path := u.Path
      if path.length = 0 ∨ path.head? ≠ some '/' then
        Run.done ([], [], some DriverError.invalidPath)
      else do
        let tail ← sliceFrom path 1
        let idx := strings.Index tail ['/']
        if idx ≥ 0 then do
          let splitPos := 1 + idx
          let method ← sliceFrom path (splitPos + 1)
          let newPath ← sliceTo path splitPos
          pure (consulFinish { u with Path := newPath } method)
        else pure (consulFinish u [])

/-- Lines 161-165 of `ParseServerMethod`: the split of an input without "//". -/
def schemelessStrategy (uri : Str) : Run SplitResult :=
  let sep := strings.IndexByte uri '/'
  if sep = -1 then Run.done ([], [], some (DriverError.noSlashFound uri))
  else do
    let server ← sliceTo uri sep
    let method ← sliceFrom uri sep
    pure (server, method, none)

/-- Lines 178-184 of `ParseServerMethod`: the generic split of a URI after its first
path segment.  A URI that does not parse gives two empty strings and a nil error. -/
def genericStrategy (uri : Str) : Run SplitResult :=
  match url.Parse uri with
  | Except.error _ => Run.done ([], [], none)
  | Except.ok u => do
    let tail ← sliceFrom u.Path 1
    let index := strings.IndexByte tail '/' + 1
    let key ← sliceTo u.Path index
    let method ← sliceFrom u.Path index
    pure (u.Scheme ++ "://".toList ++ u.Host ++ key, method, none)

/-- Lines 169-176 of `ParseServerMethod`: for an input with a backend keyword and a
`?`, the text between the first `?` and the first `/` after it is cut out of `uri`
(the assignment `uri = tmp[0] + tmp[1][sep:]`); without such a `/` the function
returns an error.  Any other input is left as it is. -/
def presplit (uri : Str) : Run (Except DriverError Str) :=
  if (strings.Contains uri kindConsul ∨ strings.Contains uri kindNacos)
      ∧ strings.Contains uri ['?'] then do
    let tmp := strings.Split uri '?'
    let tmp1 ← indexAt tmp 1
    let sep := strings.IndexByte tmp1 '/'
    if sep = -1 then pure (Except.error (DriverError.noSlashFound uri))
    else do
      let tmp0 ← indexAt tmp 0
      let rest ← sliceFrom tmp1 sep
      pure (Except.ok (tmp0 ++ rest))
  else pure (Except.ok uri)

/-- Lines 169-184 of `ParseServerMethod`: the pre-split followed by the generic
split of the string it leaves. -/
def presplitStrategy (uri : Str) : Run SplitResult :=
  match presplit uri with
  | Run.panic => Run.panic
  | Run.done (Except.error e) => Run.done ([], [], some e)
  | Run.done (Except.ok uri2) => genericStrategy uri2

/-- The pre-split in the words of the specification: split on `?` into prefix and
remainder (the remainder ends at the next `?`); within the remainder find the first
`/` and put everything from that `/` onward back on the prefix.  `none` when the
remainder holds no `/`. -/
def specPresplit (uri : Str) : Option Str :=
  let pre := uri.takeWhile (· != '?')
  let rem := ((uri.dropWhile (· != '?')).drop 1).takeWhile (· != '?')
  if '/' ∈ rem then some (pre ++ rem.dropWhile (· != '/')) else none

/-- The method `zeroDriver.ParseServerMethod(uri)`. -/
def ParseServerMethod (uri : Str) : Run SplitResult :=
  if strings.Contains uri kindConsul then consulStrategy uri
  else if ¬ strings.Contains uri ['/', '/'] then schemelessStrategy uri
  else presplitStrategy uri

/-- Go `discov.PubOption`, as built by `discov.WithPubEtcdAccount(user, password)`. -/
inductive PubOption where
  | WithPubEtcdAccount (user password : Str)
deriving DecidableEq, Repr

/-- The `consul.Conf` literal `RegisterService` builds. -/
structure ConsulConf where
  Host : Str
  Key : Str
  Tag : List Str
  Meta : List (Str × Str)
deriving DecidableEq, Repr

/-- The arguments of `constant.NewServerConfig(host, port)`. -/
structure ServerConfig where
  IpAddr : Str
  Port : Nat
deriving DecidableEq, Repr

/-- The fields of `constant.ClientConfig` that `RegisterService` sets. -/
structure ClientConfig where
  NamespaceId : Str
  TimeoutMs : Nat
  NotLoadCacheAtStart : Bool
  LogLevel : Str
deriving DecidableEq, Repr

/-- The calls `RegisterService` makes into the registration backends. -/
inductive Action where
  /-- `discov.NewPublisher(hosts, key, endpoint, opts...)` followed by `pub.KeepAlive()` -/
  | keepAlive (hosts : List Str) (key endpoint : Str) (opts : List PubOption)
  /-- `consul.RegisterService(endpoint, conf)` -/
  | consulRegister (endpoint : Str) (conf : ConsulConf)
  /-- `nacos.RegisterService(nacos.NewNacosConfig(key, endpoint, sc, cc))` -/
  | nacosRegister (key endpoint : Str) (sc : List ServerConfig) (cc : ClientConfig)
deriving DecidableEq, Repr

/-- The registration backends, external to the repository: the error each
registration call returns (`none` is nil). -/
structure Backend where
  consulRegisterService : Str → ConsulConf → Option Str
  nacosRegisterService : Str → Str → List ServerConfig → ClientConfig → Option Str

/-- What a call of `RegisterService` does: the backend calls it issued, in order,
and the error it returned. -/
structure RegisterResult where
  actions : List Action
  err : Option DriverError
deriving DecidableEq, Repr

/-- Lines 69-103 of `RegisterService`: the nacos case. -/
def registerNacos (b : Backend) (u : url.URL) (query : url.Values) (endpoint : Str) :
    Run RegisterResult := do
  -- server
  let hostPort := strings.Split u.Host ':'
  let host ← indexAt hostPort 0
  let portText ← indexAt hostPort 1
  let port := (strconv.ParseUint portText).1
  -- client
  let namespaceId :=
    if query.Get "namespaceId".toList ≠ [] then query.Get "namespaceId".toList
    else "public".toList
  let timeoutMs :=
    if query.Get "timeoutMs".toList ≠ [] then (strconv.ParseUint (query.Get "timeoutMs".toList)).1
    else 5000
  let notLoadCacheAtStart : Bool :=
    if query.Get "notLoadCacheAtStart".toList ≠ []
        ∧ query.Get "notLoadCacheAtStart".toList = "false".toList then false
    else true
  let logLevel :=
    if query.Get "logLevel".toList ≠ [] then query.Get "logLevel".toList
    else "debug".toList
  let sc : List ServerConfig := [{ IpAddr := host, Port := port }]
  let cc : ClientConfig :=
    { NamespaceId := namespaceId, TimeoutMs := timeoutMs,
      NotLoadCacheAtStart := notLoadCacheAtStart, LogLevel := logLevel }
  let key := strings.TrimPrefix u.Path ['/']
  pure { actions := [Action.nacosRegister key endpoint sc cc],
         err := (b.nacosRegisterService key endpoint sc cc).map DriverError.backend }

/-- The method `zeroDriver.RegisterService(target, endpoint)`. -/
def RegisterService (b : Backend) (target endpoint : Str) : Run RegisterResult :=
  if target = [] then
    -- empty target, no action
    Run.done { actions := [], err := none }
  else
    match url.Parse target with
    | Except.error e => Run.done { actions := [], err := some (DriverError.parse e) }
    | Except.ok u =>
      let query := url.ParseQuery u.RawQuery
      let opts : List PubOption :=
        if query.Get "user".toList ≠ [] then
          [PubOption.WithPubEtcdAccount (query.Get "user".toList) (query.Get "password".toList)]
        else []
      if u.Scheme = kindDiscov ∨ u.Scheme = kindEtcd then
        Run.done
          { actions := [Action.keepAlive (strings.Split u.Host ',')
              (strings.TrimPrefix u.Path ['/']) endpoint opts],
            err := none }
      else if u.Scheme = kindConsul then
        let conf : ConsulConf :=
          { Host := u.Host, Key := strings.TrimPrefix u.Path ['/'],
            Tag := ["tag".toList, "rpc".toList],
            Meta := [("Protocol".toList, "grpc".toList)] }
        Run.done
          { actions := [Action.consulRegister endpoint conf],
            err := (b.consulRegisterService endpoint conf).map DriverError.backend }
      else if u.Scheme = kindNacos then registerNacos b u query endpoint
      else Run.done { actions := [], err := some (DriverError.unknownScheme u.Scheme) }


/-! ## Notions used to state the properties -/

/-- The text of `fmt.Errorf("unknown scheme: %s", scheme)`, the message of
`DriverError.unknownScheme scheme`. -/
def unknownSchemeText (scheme : Str) : Str := "unknown scheme: ".toList ++ scheme

/-- A decimal digit. -/
def isDigit (c : Char) : Bool := decide ('0' ≤ c ∧ c ≤ '9')

/-- A non-empty string of decimal digits. -/
def isDecimal (s : Str) : Bool := decide (s ≠ []) && s.all isDigit

/-- The number a string of decimal digits denotes. -/
def decimalValue (s : Str) : Nat :=
  s.foldl (fun n c => n * 10 + (c.toNat - '0'.toNat)) 0

/-- A backend whose registration calls all succeed. -/
def okBackend : Backend where
  consulRegisterService := fun _ _ => none
  nacosRegisterService := fun _ _ _ _ => none

/-! ## Basic facts about the run-time model and `strings` -/

@[simp] theorem Run.done_bind {α β : Type} (a : α) (f : α → Run β) :
    (Run.done a >>= f) = f a := rfl

@[simp] theorem Run.panic_bind {α β : Type} (f : α → Run β) :
    ((Run.panic : Run α) >>= f) = Run.panic := rfl

@[simp] theorem Run.pure_eq {α : Type} (a : α) : (pure a : Run α) = Run.done a := rfl

theorem sliceFrom_nat (s : Str) (n : Nat) (h : n ≤ s.length) :
    sliceFrom s (n : Int) = Run.done (s.drop n) := by
  simp [sliceFrom, h]

theorem sliceTo_nat (s : Str) (n : Nat) (h : n ≤ s.length) :
    sliceTo s (n : Int) = Run.done (s.take n) := by
  simp [sliceTo, h]

theorem take_length_takeWhile (p : Char → Bool) (s : Str) :
    s.take (s.takeWhile p).length = s.takeWhile p := by
  induction s with
  | nil => simp
  | cons x xs ih => by_cases hx : p x <;> simp [List.takeWhile_cons, hx, ih]

theorem drop_length_takeWhile (p : Char → Bool) (s : Str) :
    s.drop (s.takeWhile p).length = s.dropWhile p := by
  induction s with
  | nil => simp
  | cons x xs ih =>
    by_cases hx : p x <;> simp [List.takeWhile_cons, List.dropWhile_cons, hx, ih]

theorem length_takeWhile_le (p : Char → Bool) (s : Str) :
    (s.takeWhile p).length ≤ s.length := by
  induction s with
  | nil => simp
  | cons x xs ih => by_cases hx : p x <;> simp [List.takeWhile_cons, hx, ih]

namespace strings

theorem indexOpt_singleton (c : Char) (s : Str) :
    indexOpt [c] s = if c ∈ s then some (s.takeWhile (· != c)).length else none := by
  induction s with
  | nil => simp [indexOpt]
  | cons x xs ih =>
    by_cases hx : c = x
    · subst hx
      simp [indexOpt, List.isPrefixOf]
    · have hx2 : ¬ x = c := fun h => hx h.symm
      simp [indexOpt, List.isPrefixOf, hx, hx2, ih, List.takeWhile_cons]

theorem Index_singleton (c : Char) (s : Str) :
    Index s [c] = if c ∈ s then ((s.takeWhile (· != c)).length : Int) else -1 := by
  unfold Index
  rw [indexOpt_singleton]
  by_cases h : c ∈ s <;> simp [h]

end strings

/-! ## The schemeless split, the empty locator and the empty path -/

/-- C3: an input that contains neither "//" nor "consul" is split at its first `/`:
the text before it is the locator and the text from it onward (the `/` included) is
the method, with a nil error; an input without `/` gives two empty strings and a
non-nil error. -/
theorem schemeless_split (uri : Str)
    (hslash : strings.Contains uri ['/', '/'] = false)
    (hconsul : strings.Contains uri kindConsul = false) :
    ParseServerMethod uri =
      if '/' ∈ uri then
        Run.done (uri.takeWhile (· != '/'), uri.dropWhile (· != '/'), none)
      else Run.done ([], [], some (DriverError.noSlashFound uri)) := by
  unfold ParseServerMethod schemelessStrategy
  simp only [hconsul, hslash, strings.IndexByte, strings.Index_singleton]
  by_cases h : '/' ∈ uri
  · have hne : ¬ (((uri.takeWhile (· != '/')).length : Int) = -1) := by omega
    simp only [h, if_true, hne, if_false]
    rw [sliceTo_nat _ _ (length_takeWhile_le _ _), sliceFrom_nat _ _ (length_takeWhile_le _ _)]
    simp [take_length_takeWhile, drop_length_takeWhile]
  · simp [h]

set_option maxRecDepth 100000 in
/-- C3, at the input of the spec: "127.0.0.1:2001/hello.World/Say" is split into
"127.0.0.1:2001" and "/hello.World/Say". -/
theorem schemeless_split_witness :
    strings.Contains "127.0.0.1:2001/hello.World/Say".toList ['/', '/'] = false ∧
    strings.Contains "127.0.0.1:2001/hello.World/Say".toList kindConsul = false ∧
    ParseServerMethod "127.0.0.1:2001/hello.World/Say".toList =
      Run.done ("127.0.0.1:2001".toList, "/hello.World/Say".toList, none) :=
  ⟨by decide, by decide,
    (schemeless_split "127.0.0.1:2001/hello.World/Say".toList (by decide) (by decide)).trans
      (by decide)⟩

/-- C10: `RegisterService` with an empty locator returns a nil error and calls no
backend, whatever the endpoint and whatever the backends would answer. -/
theorem RegisterService_empty_target (b : Backend) (endpoint : Str) :
    RegisterService b [] endpoint = Run.done { actions := [], err := none } := by
  simp [RegisterService]

/-- C5: on "etcd://host", a URI with an empty path, `ParseServerMethod` panics at
`u.Path[1:]` instead of returning. -/
theorem ParseServerMethod_panics_on_empty_path :
    ParseServerMethod "etcd://host".toList = Run.panic := by
  decide


/-! ## Facts about bytes -/

theorem char_le_iff (a b : Char) : a ≤ b ↔ a.toNat ≤ b.toNat := Iff.rfl

/-- A byte below `n` is `Char.ofNat k` for some `k < n`. -/
theorem char_of_lt (c : Char) (n : Nat) (h : c.toNat < n) : ∃ k, k < n ∧ c = Char.ofNat k :=
  ⟨c.toNat, h, (Char.ofNat_toNat c).symm⟩

namespace url
open encoding

set_option maxRecDepth 100000 in
theorem shouldEscape_ofNat_lt_32 (mode : encoding) :
    ∀ n, n < 32 → shouldEscape (Char.ofNat n) mode = true := by
  cases mode <;> decide

theorem shouldEscape_del (mode : encoding) : shouldEscape (Char.ofNat 0x7f) mode = true := by
  cases mode <;> decide

/-- A byte that needs no escaping is no ASCII control byte. -/
theorem not_ctl_of_shouldEscape {c : Char} {mode : encoding}
    (h : shouldEscape c mode = false) : ¬ (c.toNat < 0x20 ∨ c.toNat = 0x7f) := by
  rintro (h1 | h1)
  · obtain ⟨k, hk, rfl⟩ := char_of_lt c 32 h1
    rw [shouldEscape_ofNat_lt_32 mode k hk] at h
    exact Bool.noConfusion h
  · have hc : c = Char.ofNat 0x7f := by rw [← h1, Char.ofNat_toNat]
    rw [hc, shouldEscape_del] at h
    exact Bool.noConfusion h

theorem noCTL_append (a b : Str) :
    stringContainsCTLByte (a ++ b) = (stringContainsCTLByte a || stringContainsCTLByte b) := by
  simp [stringContainsCTLByte, List.any_append]

theorem noCTL_cons (c : Char) (s : Str) :
    stringContainsCTLByte (c :: s) =
      (decide (c.toNat < 0x20 ∨ c.toNat = 0x7f) || stringContainsCTLByte s) := by
  simp [stringContainsCTLByte]

theorem noCTL_of_plain {s : Str} {mode : encoding}
    (h : ∀ c ∈ s, shouldEscape c mode = false) : stringContainsCTLByte s = false := by
  induction s with
  | nil => rfl
  | cons x xs ih =>
    rw [noCTL_cons, ih (fun c hc => h c (List.mem_cons_of_mem _ hc))]
    have := not_ctl_of_shouldEscape (h x (List.mem_cons_self _ _))
    simp [this]

/-- Past its first byte, the loop of `getScheme` runs over scheme bytes up to the
`:` and returns the text before it and the text after it. -/
theorem getSchemeLoop_scheme (raw rest : Str) (s2 : Str) (i : Nat) (hi : 0 < i)
    (h : ∀ c ∈ s2, (('a' ≤ c ∧ c ≤ 'z') ∨ ('A' ≤ c ∧ c ≤ 'Z')) ∨
      (('0' ≤ c ∧ c ≤ '9') ∨ c = '+' ∨ c = '-' ∨ c = '.')) :
    getSchemeLoop raw (s2 ++ ':' :: rest) i = Except.ok (raw.take (i + s2.length), rest) := by
  induction s2 generalizing i with
  | nil =>
    have hi0 : i ≠ 0 := by omega
    simp +decide [getSchemeLoop, hi0]
  | cons c cs ih =>
    have hc := h c (List.mem_cons_self _ _)
    have ih2 := ih (i + 1) (by omega) (fun d hd => h d (List.mem_cons_of_mem _ hd))
    have hi0 : i ≠ 0 := by omega
    have hlen : i + 1 + cs.length = i + (cs.length + 1) := by omega
    rw [List.cons_append, getSchemeLoop, List.length_cons, ← hlen, ← ih2]
    rcases hc with hc | hc
    · rw [if_pos hc]
    · by_cases hl : ('a' ≤ c ∧ c ≤ 'z') ∨ ('A' ≤ c ∧ c ≤ 'Z')
      · rw [if_pos hl]
      · rw [if_neg hl, if_pos hc, if_neg hi0]

end url

/-! ## Facts about `strings` and `net/url` -/

namespace strings

theorem indexOpt_singleton_of_not_mem {c : Char} {s : Str} (h : c ∉ s) :
    indexOpt [c] s = none := by
  rw [indexOpt_singleton, if_neg h]

theorem indexOpt_singleton_append {c : Char} {a : Str} (b : Str) (h : c ∉ a) :
    indexOpt [c] (a ++ c :: b) = some a.length := by
  induction a with
  | nil => simp [indexOpt, List.isPrefixOf]
  | cons x xs ih =>
    have hx : ¬ c = x := fun e => h (e ▸ List.mem_cons_self _ _)
    have hxs : c ∉ xs := fun e => h (List.mem_cons_of_mem _ e)
    simp [indexOpt, List.isPrefixOf, hx, ih hxs]

theorem lastIndexOpt_singleton_of_not_mem {c : Char} {s : Str} (h : c ∉ s) :
    lastIndexOpt [c] s = none := by
  induction s with
  | nil => simp [lastIndexOpt]
  | cons x xs ih =>
    have hx : ¬ c = x := fun e => h (e ▸ List.mem_cons_self _ _)
    have hxs : c ∉ xs := fun e => h (List.mem_cons_of_mem _ e)
    simp [lastIndexOpt, List.isPrefixOf, hx, ih hxs]

theorem Cut_singleton_of_not_mem {c : Char} {s : Str} (h : c ∉ s) :
    Cut s [c] = (s, [], false) := by
  simp [Cut, indexOpt_singleton_of_not_mem h]

theorem Cut_singleton_append {c : Char} {a : Str} (b : Str) (h : c ∉ a) :
    Cut (a ++ c :: b) [c] = (a, b, true) := by
  simp [Cut, indexOpt_singleton_append b h]

theorem Contains_singleton (c : Char) (s : Str) : Contains s [c] = decide (c ∈ s) := by
  unfold Contains
  rw [indexOpt_singleton]
  by_cases h : c ∈ s <;> simp [h]

theorem HasSuffix_singleton_of_not_mem {c : Char} {s : Str} (h : c ∉ s) :
    HasSuffix s [c] = false := by
  cases hs : HasSuffix s [c] with
  | false => rfl
  | true =>
    exfalso
    unfold HasSuffix at hs
    rw [List.isSuffixOf_iff_suffix] at hs
    exact h (hs.subset (List.mem_singleton_self c))

/-- The test `HasSuffix(rest, "?") && Count(rest, "?") == 1` of `parse` fails when a
non-empty query follows the first `?`. -/
theorem not_forceQuery (a rq : Str) (hrq : rq ≠ []) :
    (HasSuffix (a ++ '?' :: rq) ['?'] && decide (Count (a ++ '?' :: rq) '?' = 1)) = false := by
  cases hs : HasSuffix (a ++ '?' :: rq) ['?'] with
  | false => rfl
  | true =>
    unfold HasSuffix at hs
    rw [List.isSuffixOf_iff_suffix] at hs
    obtain ⟨t, ht⟩ := hs
    rcases List.eq_nil_or_concat rq with h0 | ⟨rq2, l, rfl⟩
    · exact absurd h0 hrq
    · have e : t ++ ['?'] = (a ++ '?' :: rq2) ++ [l] := by simpa using ht
      have hl : l = '?' := by
        have := (List.append_inj' e rfl).2
        simpa using this.symm
      subst hl
      simp [Count, List.count_append, List.count_cons]
      omega

end strings

namespace url
open encoding

theorem unescapeCheck_cons_of_ne (mode : encoding) {c : Char} (rest : Str) (hc : c ≠ '%') :
    unescapeCheck mode (c :: rest) =
      if c = '+' then unescapeCheck mode rest
      else if (mode = encodeHost ∨ mode = encodeZone) ∧ c.toNat < 0x80
          ∧ shouldEscape c encodeHost then
        some (ParseErr.InvalidHostError [c])
      else unescapeCheck mode rest := by
  rcases rest with _ | ⟨a, _ | ⟨b, t⟩⟩ <;> simp [unescapeCheck, hc]

theorem unescapeCopy_cons_of_ne (mode : encoding) {c : Char} (rest : Str) (hc : c ≠ '%') :
    unescapeCopy mode (c :: rest) =
      if c = '+' then
        (if mode = encodeQueryComponent then ' ' else '+') :: unescapeCopy mode rest
      else c :: unescapeCopy mode rest := by
  rcases rest with _ | ⟨a, _ | ⟨b, t⟩⟩ <;> simp [unescapeCopy, hc]

theorem unescapeCheck_path_of_no_percent {s : Str} (h : '%' ∉ s) :
    unescapeCheck encodePath s = none := by
  induction s with
  | nil => rfl
  | cons x xs ih =>
    have hx : ¬ x = '%' := fun e => h (e ▸ List.mem_cons_self _ _)
    have hxs : '%' ∉ xs := fun e => h (List.mem_cons_of_mem _ e)
    rw [unescapeCheck_cons_of_ne _ _ hx]
    by_cases hp : x = '+' <;> simp [hp, ih hxs]

theorem unescapeCopy_path_of_no_percent {s : Str} (h : '%' ∉ s) :
    unescapeCopy encodePath s = s := by
  induction s with
  | nil => rfl
  | cons x xs ih =>
    have hx : ¬ x = '%' := fun e => h (e ▸ List.mem_cons_self _ _)
    have hxs : '%' ∉ xs := fun e => h (List.mem_cons_of_mem _ e)
    rw [unescapeCopy_cons_of_ne _ _ hx]
    by_cases hp : x = '+' <;> simp [hp, ih hxs]

/-- A path without `%` is its own unescaped form. -/
theorem unescape_path_of_no_percent {s : Str} (h : '%' ∉ s) :
    unescape s encodePath = Except.ok s := by
  simp [unescape, unescapeCheck_path_of_no_percent h, unescapeCopy_path_of_no_percent h]

/-- Text whose bytes need no escaping is its own escaped form. -/
theorem escape_of_plain {s : Str} {mode : encoding} (hm : mode ≠ encodeQueryComponent)
    (h : ∀ c ∈ s, shouldEscape c mode = false) : escape s mode = s := by
  induction s with
  | nil => rfl
  | cons x xs ih =>
    have hx := h x (List.mem_cons_self _ _)
    have hxs := ih (fun c hc => h c (List.mem_cons_of_mem _ hc))
    simp [escape, hm, hx, hxs]

theorem not_mem_of_plain {s : Str} {mode : encoding} (c : Char)
    (hc : shouldEscape c mode = true) (h : ∀ d ∈ s, shouldEscape d mode = false) : c ∉ s := by
  intro hmem
  rw [h c hmem] at hc
  exact Bool.noConfusion hc

theorem parseAuthority_of_host {h h2 : Str} (hat : '@' ∉ h)
    (hhost : parseHost h = Except.ok h2) : parseAuthority h = Except.ok (none, h2) := by
  simp [parseAuthority, strings.lastIndexOpt_singleton_of_not_mem hat, hhost]

theorem ToLower_ne_nil {s : Str} (h : s ≠ []) : strings.ToLower s ≠ [] := by
  simpa [strings.ToLower] using h

theorem getScheme_scheme {s : Str} (rest : Str) (hs : isSchemeName s = true) :
    getScheme (s ++ ':' :: rest) = Except.ok (s, rest) := by
  cases s with
  | nil => simp [isSchemeName] at hs
  | cons c cs =>
    simp only [isSchemeName, Bool.and_eq_true, decide_eq_true_eq, List.all_eq_true,
      isSchemeByte] at hs
    unfold getScheme
    rw [List.cons_append, getSchemeLoop, if_pos hs.1,
      getSchemeLoop_scheme _ rest cs 1 (by omega) hs.2, Nat.add_comm, List.take_succ_cons,
      List.take_left' rfl]


/-- What `parse` makes of `scheme://host path [?query]`: scheme, host and query are
split off and the path is handed to `setPath`. -/
theorem parse_uri (s h p rq h2 : Str)
    (hs : isSchemeName s = true)
    (hh1 : '/' ∉ h) (hh2 : '?' ∉ h) (hh3 : '@' ∉ h)
    (hhc : stringContainsCTLByte h = false)
    (hhost : parseHost h = Except.ok h2)
    (hp0 : p = [] ∨ p.head? = some '/') (hp1 : '?' ∉ p)
    (hpc : stringContainsCTLByte p = false)
    (hqc : stringContainsCTLByte rq = false) :
    parse (s ++ ':' :: '/' :: '/' :: (h ++ p ++ (if rq = [] then [] else '?' :: rq))) false =
      setPath { Scheme := strings.ToLower s, RawQuery := rq, Host := h2 } p := by
  have hsne : s ≠ [] := by
    rintro rfl
    simp [isSchemeName] at hs
  have hsc : stringContainsCTLByte s = false := by
    cases s with
    | nil => rfl
    | cons c cs =>
      simp only [isSchemeName, Bool.and_eq_true, decide_eq_true_eq, List.all_eq_true,
        isSchemeByte] at hs
      have hall : ∀ x ∈ c :: cs, ¬ (x.toNat < 0x20 ∨ x.toNat = 0x7f) := by
        intro x hx
        have hx2 : (('a' ≤ x ∧ x ≤ 'z') ∨ ('A' ≤ x ∧ x ≤ 'Z')) ∨
            (('0' ≤ x ∧ x ≤ '9') ∨ x = '+' ∨ x = '-' ∨ x = '.') := by
          rcases List.mem_cons.1 hx with rfl | hx
          · exact Or.inl hs.1
          · exact hs.2 x hx
        simp only [char_le_iff] at hx2
        have e1 : 'a'.toNat = 97 := rfl
        have e2 : 'z'.toNat = 122 := rfl
        have e3 : 'A'.toNat = 65 := rfl
        have e4 : 'Z'.toNat = 90 := rfl
        have e5 : '0'.toNat = 48 := rfl
        have e6 : '9'.toNat = 57 := rfl
        rcases hx2 with (h | h) | (h | rfl | rfl | rfl)
        · omega
        · omega
        · omega
        · decide
        · decide
        · decide
      simpa [stringContainsCTLByte] using hall
  have hraw : stringContainsCTLByte
      (s ++ ':' :: '/' :: '/' :: (h ++ p ++ (if rq = [] then [] else '?' :: rq))) = false := by
    by_cases hrq : rq = []
    · simp [noCTL_append, noCTL_cons, hsc, hhc, hpc, hrq]
    · simp [noCTL_append, noCTL_cons, hsc, hhc, hpc, hqc, hrq]
  have hstar : s ++ ':' :: '/' :: '/' :: (h ++ p ++ (if rq = [] then [] else '?' :: rq))
      ≠ ['*'] := by
    intro e
    have := congrArg List.length e
    simp at this
    omega
  have hq : '?' ∉ '/' :: '/' :: (h ++ p) := by
    simp [hh2, hp1]
  have hforce : (strings.HasSuffix ('/' :: '/' :: (h ++ p ++ (if rq = [] then [] else '?' :: rq)))
      ['?'] && decide (strings.Count
        ('/' :: '/' :: (h ++ p ++ (if rq = [] then [] else '?' :: rq))) '?' = 1)) = false := by
    by_cases hrq : rq = []
    · have : '?' ∉ '/' :: '/' :: (h ++ p ++ (if rq = [] then [] else '?' :: rq)) := by
        simpa [hrq] using hq
      rw [strings.HasSuffix_singleton_of_not_mem this]
      rfl
    · have := strings.not_forceQuery ('/' :: '/' :: (h ++ p)) rq hrq
      simpa [hrq] using this
  have hcut : strings.Cut ('/' :: '/' :: (h ++ p ++ (if rq = [] then [] else '?' :: rq))) ['?']
      = ('/' :: '/' :: (h ++ p), rq, decide (rq ≠ [])) := by
    by_cases hrq : rq = []
    · have := strings.Cut_singleton_of_not_mem hq
      simpa [hrq] using this
    · have := strings.Cut_singleton_append rq hq
      simpa [hrq] using this
  have hauth : (match strings.indexOpt ['/'] (h ++ p) with
      | some i => (h ++ p).take i
      | none => h ++ p) = h := by
    rcases hp0 with rfl | hp0
    · simp [strings.indexOpt_singleton_of_not_mem hh1]
    · cases p with
      | nil => simp at hp0
      | cons c cs =>
        simp at hp0
        subst hp0
        simp [strings.indexOpt_singleton_append cs hh1]
  have hrest : (match strings.indexOpt ['/'] (h ++ p) with
      | some i => (h ++ p).drop i
      | none => []) = p := by
    rcases hp0 with rfl | hp0
    · simp [strings.indexOpt_singleton_of_not_mem hh1]
    · cases p with
      | nil => simp at hp0
      | cons c cs =>
        simp at hp0
        subst hp0
        simp [strings.indexOpt_singleton_append cs hh1]
  have hlow := ToLower_ne_nil hsne
  unfold parse
  rw [if_neg (by rw [hraw]; exact Bool.false_ne_true), if_neg (by simp), if_neg hstar,
    getScheme_scheme _ hs]
  simp only [hforce, hcut, Bool.false_eq_true, if_false]
  simp only [strings.HasPrefix, List.isPrefixOf, beq_self_eq_true, Bool.true_and,
    not_true_eq_false, if_false]
  unfold parseRest
  simp only [strings.HasPrefix, List.isPrefixOf, beq_self_eq_true, Bool.true_and, ne_eq, hlow,
    not_false_eq_true, true_or, and_self, if_true, List.drop_succ_cons, List.drop_zero, hauth,
    hrest, parseAuthority_of_host hh3 hhost]


theorem not_mem_of_isSchemeName {s : Str} (c : Char) (hc : isSchemeByte c = false)
    (hs : isSchemeName s = true) : c ∉ s := by
  cases s with
  | nil => simp
  | cons x xs =>
    simp only [isSchemeName, Bool.and_eq_true, decide_eq_true_eq, List.all_eq_true] at hs
    intro hmem
    rcases List.mem_cons.1 hmem with rfl | hmem
    · have : isSchemeByte c = true := by simp [isSchemeByte, hs.1]
      rw [this] at hc
      exact Bool.noConfusion hc
    · rw [hs.2 c hmem] at hc
      exact Bool.noConfusion hc

/-- What `url.Parse` makes of `scheme://host path [?query]` without fragment. -/
theorem Parse_uri (s h p rq h2 path : Str)
    (hs : isSchemeName s = true)
    (hh1 : '/' ∉ h) (hh2 : '?' ∉ h) (hh3 : '@' ∉ h) (hh4 : '#' ∉ h)
    (hhc : stringContainsCTLByte h = false)
    (hhost : parseHost h = Except.ok h2)
    (hp0 : p = [] ∨ p.head? = some '/') (hp1 : '?' ∉ p) (hp2 : '#' ∉ p)
    (hpc : stringContainsCTLByte p = false)
    (hpath : unescape p encodePath = Except.ok path)
    (hq2 : '#' ∉ rq)
    (hqc : stringContainsCTLByte rq = false) :
    Parse (s ++ ':' :: '/' :: '/' :: (h ++ p ++ (if rq = [] then [] else '?' :: rq))) =
      Except.ok { Scheme := strings.ToLower s, RawQuery := rq, Host := h2, Path := path,
                  RawPath := if p = escape path encodePath then [] else p } := by
  have hsharp : '#' ∉ s ++ ':' :: '/' :: '/' :: (h ++ p ++ (if rq = [] then [] else '?' :: rq)) := by
    have := not_mem_of_isSchemeName '#' (by decide) hs
    by_cases hrq : rq = [] <;> simp [this, hh4, hp2, hq2, hrq]
  unfold Parse
  rw [strings.Cut_singleton_of_not_mem hsharp]
  simp only [parse_uri s h p rq h2 hs hh1 hh2 hh3 hhc hhost hp0 hp1 hpc hqc, setPath, hpath,
    if_true]

/-- What `String` writes for a URL made of a scheme, a host, a plain path and a
query. -/
theorem String_simple (sch h path rq : Str) (hsch : sch ≠ [])
    (hne : h ≠ [] ∨ path ≠ [])
    (hh : ∀ c ∈ h, shouldEscape c encodeHost = false)
    (hp : ∀ c ∈ path, shouldEscape c encodePath = false)
    (hp0 : path = [] ∨ path.head? = some '/') :
    URL.String { Scheme := sch, RawQuery := rq, Host := h, Path := path } =
      sch ++ ':' :: '/' :: '/' :: (h ++ path ++ (if rq = [] then [] else '?' :: rq)) := by
  have hstar : path ≠ ['*'] := by
    rcases hp0 with rfl | hp0
    · simp
    · rintro rfl
      simp at hp0
  have hhead : ¬ (path ≠ [] ∧ path.head? ≠ some '/' ∧ h ≠ []) := by
    rcases hp0 with rfl | hp0
    · simp
    · simp [hp0]
  have hesc : URL.EscapedPath { Scheme := sch, RawQuery := rq, Host := h, Path := path } = path := by
    simp [URL.EscapedPath, hstar, escape_of_plain (by decide) hp]
  have hauth : URL.authorityString { Scheme := sch, RawQuery := rq, Host := h, Path := path }
      = '/' :: '/' :: h := by
    have e : escape h encodeHost = h := escape_of_plain (by decide) hh
    by_cases h0 : h = []
    · have hp1 : path ≠ [] := hne.resolve_left (fun x => x h0)
      simp [URL.authorityString, hsch, h0, hp1]
    · simp [URL.authorityString, hsch, h0, e]
  unfold URL.String
  simp only [hesc, hauth]
  simp only [ne_eq, hsch, not_false_eq_true, if_true, not_true_eq_false, if_false, hhead]
  by_cases hrq : rq = [] <;> simp [hrq]

end url

open url.encoding

namespace strings

theorem Index_singleton_append {c : Char} {a : Str} (b : Str) (h : c ∉ a) :
    Index (a ++ c :: b) [c] = (a.length : Int) := by
  simp [Index, indexOpt_singleton_append b h]

theorem Index_singleton_of_not_mem {c : Char} {s : Str} (h : c ∉ s) :
    Index s [c] = -1 := by
  simp [Index, indexOpt_singleton_of_not_mem h]

theorem Contains_append_of_isPrefixOf (substr a t : Str) (h : substr.isPrefixOf t = true) :
    Contains (a ++ t) substr = true := by
  unfold Contains
  induction a with
  | nil =>
    cases t with
    | nil =>
      cases substr with
      | nil => simp [indexOpt]
      | cons x xs => simp [List.isPrefixOf] at h
    | cons y ys => simp [indexOpt, h]
  | cons x xs ih =>
    rw [List.cons_append, indexOpt]
    split
    · rfl
    · cases hi : indexOpt substr (xs ++ t) with
      | none => rw [hi] at ih; exact Bool.noConfusion ih
      | some i => rfl

end strings

theorem sliceFrom_of_eq (s : Str) (i : Int) (n : Nat) (hi : i = (n : Int)) (h : n ≤ s.length) :
    sliceFrom s i = Run.done (s.drop n) := by
  subst hi
  exact sliceFrom_nat s n h

theorem sliceTo_of_eq (s : Str) (i : Int) (n : Nat) (hi : i = (n : Int)) (h : n ≤ s.length) :
    sliceTo s i = Run.done (s.take n) := by
  subst hi
  exact sliceTo_nat s n h

/-! ## The consul strategy -/

/-- The facts about a host that needs no escaping which the parser relies on. -/
theorem host_facts {h : Str} (hh : ∀ c ∈ h, url.shouldEscape c encodeHost = false) :
    '/' ∉ h ∧ '?' ∉ h ∧ '@' ∉ h ∧ '#' ∉ h ∧ url.stringContainsCTLByte h = false :=
  ⟨url.not_mem_of_plain '/' (by decide) hh, url.not_mem_of_plain '?' (by decide) hh,
    url.not_mem_of_plain '@' (by decide) hh, url.not_mem_of_plain '#' (by decide) hh,
    url.noCTL_of_plain hh⟩

/-- The facts about a path that needs no escaping which the parser relies on. -/
theorem path_facts {p : Str} (hp : ∀ c ∈ p, url.shouldEscape c encodePath = false) :
    '?' ∉ p ∧ '#' ∉ p ∧ '%' ∉ p ∧ url.stringContainsCTLByte p = false :=
  ⟨url.not_mem_of_plain '?' (by decide) hp, url.not_mem_of_plain '#' (by decide) hp,
    url.not_mem_of_plain '%' (by decide) hp, url.noCTL_of_plain hp⟩

theorem plain_path_join {k m : Str} (hk : ∀ c ∈ k, url.shouldEscape c encodePath = false)
    (hm : ∀ c ∈ m, url.shouldEscape c encodePath = false) :
    ∀ c ∈ '/' :: k ++ '/' :: m, url.shouldEscape c encodePath = false := by
  intro c hc
  simp only [List.cons_append, List.mem_cons, List.mem_append] at hc
  rcases hc with rfl | hc | rfl | hc
  · decide
  · exact hk c hc
  · decide
  · exact hm c hc

set_option maxRecDepth 100000 in
/-- C1 as stated fails: the bytes of the host "localhost:http" need no escaping, yet
"consul://localhost:http/my-api-gateway/hello.World/Say" does not parse as a URI (the
port is not a number) and `ParseServerMethod` returns the parse error with an empty
locator and method. -/
theorem consul_path_split_bad_port :
    (∀ c ∈ "localhost:http".toList, url.shouldEscape c encodeHost = false) ∧
    ParseServerMethod ("consul://".toList ++ "localhost:http".toList
        ++ '/' :: "my-api-gateway".toList ++ '/' :: "hello.World/Say".toList) =
      Run.done ([], [], some (DriverError.parse
        { Op := "parse",
          URL := "consul://localhost:http/my-api-gateway/hello.World/Say".toList,
          Err := url.ParseErr.invalidPort ":http".toList })) := by
  decide

/-- C1, amended: a consul URI without query, `consul://h/k/m` with a host `h` that the
URL parser accepts as it is, a first path segment `k` without `/` and a non-empty
remainder `m`, none of whose bytes needs escaping, is split into the locator
`consul://h/k` and the method `m` (no leading `/`), with a nil error. -/
theorem consul_path_split (h k m : Str)
    (hh : ∀ c ∈ h, url.shouldEscape c encodeHost = false)
    (hhost : url.parseHost h = Except.ok h)
    (hk : ∀ c ∈ k, url.shouldEscape c encodePath = false)
    (hks : '/' ∉ k)
    (hm : ∀ c ∈ m, url.shouldEscape c encodePath = false)
    (hm0 : m ≠ []) :
    ParseServerMethod ("consul://".toList ++ h ++ '/' :: k ++ '/' :: m) =
      Run.done ("consul://".toList ++ h ++ '/' :: k, m, none) := by
  obtain ⟨hh1, hh2, hh3, hh4, hhc⟩ := host_facts hh
  have hp := plain_path_join hk hm
  obtain ⟨hp1, hp2, hp3, hpc⟩ := path_facts hp
  have huri : "consul://".toList ++ h ++ '/' :: k ++ '/' :: m =
      kindConsul ++ ':' :: '/' :: '/' :: (h ++ ('/' :: k ++ '/' :: m) ++
        (if ([] : Str) = [] then [] else '?' :: [])) := by
    simp [kindConsul]
  have hcontains : strings.Contains ("consul://".toList ++ h ++ '/' :: k ++ '/' :: m)
      kindConsul = true := by
    have := strings.Contains_append_of_isPrefixOf kindConsul []
      ("consul://".toList ++ h ++ '/' :: k ++ '/' :: m) (by simp [kindConsul, List.isPrefixOf])
    simpa using this
  have hparse := url.Parse_uri kindConsul h ('/' :: k ++ '/' :: m) [] h ('/' :: k ++ '/' :: m)
    (by decide) hh1 hh2 hh3 hh4 hhc hhost (Or.inr rfl) hp1 hp2 hpc
    (url.unescape_path_of_no_percent hp3) (by simp) rfl
  rw [← huri, url.escape_of_plain (by decide) hp] at hparse
  have hkplain : ∀ c ∈ '/' :: k, url.shouldEscape c encodePath = false := by
    intro c hc
    rcases List.mem_cons.1 hc with rfl | hc
    · decide
    · exact hk c hc
  have hstr := url.String_simple (strings.ToLower kindConsul) h ('/' :: k) []
    (by decide) (Or.inr (by simp)) hh hkplain (Or.inr rfl)
  have hlen : 1 + (k.length : Int) + 1 = ((k.length + 2 : Nat) : Int) := by
    push_cast; ring
  have hlen2 : 1 + (k.length : Int) = ((k.length + 1 : Nat) : Int) := by
    push_cast; ring
  unfold ParseServerMethod
  rw [if_pos hcontains]
  unfold consulStrategy
  rw [hparse]
  simp only [ne_eq, not_true_eq_false, if_false, if_true]
  rw [if_neg (by simp)]
  rw [sliceFrom_of_eq _ 1 1 rfl (by simp)]
  simp only [Run.done_bind, List.cons_append, List.drop_succ_cons, List.drop_zero,
    strings.Index_singleton_append m hks]
  rw [if_pos (by omega), sliceFrom_of_eq _ _ _ hlen (by simp), sliceTo_of_eq _ _ _ hlen2 (by simp)]
  simp only [Run.done_bind, Run.pure_eq, consulFinish, hm0, if_false]
  have e1 : List.drop (k.length + 2) ('/' :: (k ++ '/' :: m)) = m := by
    simp [List.drop_succ_cons, List.drop_append]
  have e2 : List.take (k.length + 1) ('/' :: (k ++ '/' :: m)) = '/' :: k := by
    simp [List.take_succ_cons, List.take_append]
  rw [e1, e2]
  have hstr2 : url.URL.String
      { Scheme := strings.ToLower kindConsul, RawQuery := [], Host := h, Path := '/' :: k,
        RawPath := if True then [] else '/' :: (k ++ '/' :: m) } =
      "consul://".toList ++ h ++ '/' :: k := by
    simpa [kindConsul, strings.ToLower, strings.lowerByte] using hstr
  simpa [hm0] using hstr2

set_option maxRecDepth 100000 in
/-- C1, amended, at the input of the spec: "consul://localhost:8500/my-api-gateway/hello.World/Say"
gives the locator "consul://localhost:8500/my-api-gateway" and the method
"hello.World/Say". -/
theorem consul_path_split_witness :
    ParseServerMethod
        ("consul://".toList ++ "localhost:8500".toList ++ '/' :: "my-api-gateway".toList
          ++ '/' :: "hello.World/Say".toList) =
      Run.done ("consul://".toList ++ "localhost:8500".toList ++ '/' :: "my-api-gateway".toList,
        "hello.World/Say".toList, none) :=
  consul_path_split "localhost:8500".toList "my-api-gateway".toList "hello.World/Say".toList
    (by decide) (by rfl) (by decide) (by decide) (by decide) (by decide)

/-- The test of `validEncoded` on one byte. -/
theorem validEncoded_cons (c : Char) (s : Str) (mode : url.encoding) :
    url.validEncoded (c :: s) mode =
      ((if c ∈ ['!', '$', '&', Char.ofNat 39, '(', ')', '*', '+', ',', ';', '=', ':', '@'] then true
        else if c ∈ ['[', ']'] then true
        else if c = '%' then true
        else ! url.shouldEscape c mode) && url.validEncoded s mode) := by
  simp [url.validEncoded]

set_option maxRecDepth 100000 in
theorem validEncoded_byte_lt_32 :
    ∀ n, n < 32 → url.validEncoded [Char.ofNat n] encodePath = false := by
  decide

/-- A validly encoded path holds no `?`, no `#` and no ASCII control byte. -/
theorem validEncoded_path_facts {p : Str} (hv : url.validEncoded p encodePath = true) :
    '?' ∉ p ∧ '#' ∉ p ∧ url.stringContainsCTLByte p = false := by
  induction p with
  | nil => exact ⟨by simp, by simp, rfl⟩
  | cons c cs ih =>
    rw [validEncoded_cons, Bool.and_eq_true] at hv
    obtain ⟨h1, h2, h3⟩ := ih hv.2
    have hc : url.validEncoded [c] encodePath = true := by
      rw [validEncoded_cons, hv.1]
      rfl
    have hq : c ≠ '?' := by
      rintro rfl
      exact absurd hc (by decide)
    have hs : c ≠ '#' := by
      rintro rfl
      exact absurd hc (by decide)
    have hctl : ¬ (c.toNat < 0x20 ∨ c.toNat = 0x7f) := by
      rintro (hlt | heq)
      · obtain ⟨k, hk, rfl⟩ := char_of_lt c 32 hlt
        rw [validEncoded_byte_lt_32 k hk] at hc
        exact Bool.noConfusion hc
      · have e : c = Char.ofNat 0x7f := by rw [← heq, Char.ofNat_toNat]
        rw [e] at hc
        exact absurd hc (by decide)
    refine ⟨?_, ?_, ?_⟩
    · simpa [hq.symm] using h1
    · simpa [hs.symm] using h2
    · rw [url.noCTL_cons, h3]
      simp [hctl]

/-- Unescaping keeps a leading `/`. -/
theorem unescape_slash_cons {t path : Str}
    (h : url.unescape ('/' :: t) encodePath = Except.ok path) :
    ∃ path2, path = '/' :: path2 := by
  unfold url.unescape at h
  split at h
  · exact absurd h (by simp)
  · rw [url.unescapeCopy_cons_of_ne _ _ (by decide), if_neg (by decide)] at h
    exact ⟨_, (Except.ok.inj h).symm⟩

theorem unescape_nil : url.unescape [] encodePath = Except.ok [] := by rfl

/-- After `setPath(p)` for a validly encoded `p` that is empty or starts with `/`,
`EscapedPath` gives `p` back. -/
theorem EscapedPath_of_validEncoded (u : url.URL) (p path : Str)
    (hp0 : p = [] ∨ p.head? = some '/')
    (hv : url.validEncoded p encodePath = true)
    (hu : url.unescape p encodePath = Except.ok path)
    (hpath : u.Path = path)
    (hraw : u.RawPath = if p = url.escape path encodePath then [] else p) :
    u.EscapedPath = p := by
  have hstar : path ≠ ['*'] := by
    rcases hp0 with rfl | hp0
    · rw [unescape_nil] at hu
      rw [← Except.ok.inj hu]
      simp
    · cases p with
      | nil => simp at hp0
      | cons c t =>
        simp at hp0
        subst hp0
        obtain ⟨path2, rfl⟩ := unescape_slash_cons hu
        simp
  unfold url.URL.EscapedPath
  rw [hraw, hpath]
  by_cases he : p = url.escape path encodePath
  · rw [if_pos he, if_neg (by simp), if_neg hstar]
    exact he.symm
  · rw [if_neg he]
    have hne : p ≠ [] := by
      rintro rfl
      rw [unescape_nil] at hu
      rw [← Except.ok.inj hu] at he
      exact he rfl
    have hto : url.unescapesTo p encodePath path = true := by
      simp [url.unescapesTo, hu]
    rw [if_pos ⟨hne, hv, hto⟩]

/-- What `String` writes for a URL made of a scheme, a plain host, a path whose
escaped form is `p`, and a query. -/
theorem String_of_EscapedPath (u : url.URL) (p : Str)
    (hsch : u.Scheme ≠ []) (hop : u.Opaque = []) (huser : u.User = none)
    (homit : u.OmitHost = false) (hforce : u.ForceQuery = false) (hfrag : u.Fragment = [])
    (hh : ∀ c ∈ u.Host, url.shouldEscape c encodeHost = false)
    (hne : u.Host ≠ [] ∨ u.Path ≠ [])
    (hesc : u.EscapedPath = p)
    (hp0 : p = [] ∨ p.head? = some '/') :
    u.String =
      u.Scheme ++ ':' :: '/' :: '/' :: (u.Host ++ p ++
        (if u.RawQuery = [] then [] else '?' :: u.RawQuery)) := by
  have hhead : ¬ (p ≠ [] ∧ p.head? ≠ some '/' ∧ u.Host ≠ []) := by
    rcases hp0 with rfl | hp0
    · simp
    · simp [hp0]
  have hauth : u.authorityString = '/' :: '/' :: u.Host := by
    have e : url.escape u.Host encodeHost = u.Host := url.escape_of_plain (by decide) hh
    by_cases h0 : u.Host = []
    · have hp1 : u.Path ≠ [] := hne.resolve_left (fun x => x h0)
      simp [url.URL.authorityString, hsch, h0, hp1, huser, homit]
    · simp [url.URL.authorityString, hsch, h0, e, huser, homit]
  unfold url.URL.String
  simp only [hesc, hauth, hop, hforce, hfrag]
  simp only [ne_eq, hsch, not_false_eq_true, if_true, not_true_eq_false, if_false, hhead]
  by_cases hrq : u.RawQuery = [] <;> simp [hrq]

set_option maxRecDepth 100000 in
/-- C2 as stated fails: for the path "/grpc product", whose space must be escaped in
a URI, the locator returned for "consul://127.0.0.1:8500/grpc product?tag=q/p.S/M" is
"consul://127.0.0.1:8500/grpc%20product?tag=q", not the URI with the query reduced to
"tag=q". -/
theorem consul_query_split_escapes_path :
    ParseServerMethod ("consul://".toList ++ "127.0.0.1:8500".toList ++ "/grpc product".toList
        ++ '?' :: "tag=q".toList ++ '/' :: "p.S/M".toList) =
      Run.done ("consul://127.0.0.1:8500/grpc%20product?tag=q".toList, "p.S/M".toList, none) ∧
    "consul://127.0.0.1:8500/grpc%20product?tag=q".toList ≠
      "consul://".toList ++ "127.0.0.1:8500".toList ++ "/grpc product".toList
        ++ '?' :: "tag=q".toList := by
  decide

/-- C2, amended: a consul URI with a query, `consul://h p?q/m`, with a host `h` that
the URL parser accepts as it is and whose bytes need no escaping, a path `p` that is
empty or starts with `/` and is validly percent-encoded (host and path not both
empty), a query text `q` without `/` and `#` and a non-empty `m` without `#`, neither
holding an ASCII control byte, is split at the first `/` of the query: the method is
`m`, the error is nil and the locator is the URI with the query reduced to `q`
(`consul://h p?q`, and `consul://h p` when `q` is empty). -/
theorem consul_query_split (h p q m path : Str)
    (hh : ∀ c ∈ h, url.shouldEscape c encodeHost = false)
    (hhost : url.parseHost h = Except.ok h)
    (hp0 : p = [] ∨ p.head? = some '/')
    (hpv : url.validEncoded p encodePath = true)
    (hpu : url.unescape p encodePath = Except.ok path)
    (hne : h ≠ [] ∨ p ≠ [])
    (hq1 : '/' ∉ q) (hq2 : '#' ∉ q) (hqc : url.stringContainsCTLByte q = false)
    (hm0 : m ≠ []) (hm2 : '#' ∉ m) (hmc : url.stringContainsCTLByte m = false) :
    ParseServerMethod ("consul://".toList ++ h ++ p ++ '?' :: q ++ '/' :: m) =
      Run.done ("consul://".toList ++ h ++ p ++ (if q = [] then [] else '?' :: q), m, none) := by
  obtain ⟨hh1, hh2, hh3, hh4, hhc⟩ := host_facts hh
  obtain ⟨hp1, hp2, hpc⟩ := validEncoded_path_facts hpv
  have hrq : q ++ '/' :: m ≠ [] := by simp
  have huri : "consul://".toList ++ h ++ p ++ '?' :: q ++ '/' :: m =
      kindConsul ++ ':' :: '/' :: '/' :: (h ++ p ++
        (if q ++ '/' :: m = [] then [] else '?' :: (q ++ '/' :: m))) := by
    simp [kindConsul]
  have hcontains : strings.Contains ("consul://".toList ++ h ++ p ++ '?' :: q ++ '/' :: m)
      kindConsul = true := by
    have := strings.Contains_append_of_isPrefixOf kindConsul []
      ("consul://".toList ++ h ++ p ++ '?' :: q ++ '/' :: m) (by simp [kindConsul, List.isPrefixOf])
    simpa using this
  have hparse := url.Parse_uri kindConsul h p (q ++ '/' :: m) h path
    (by decide) hh1 hh2 hh3 hh4 hhc hhost hp0 hp1 hp2 hpc hpu (by simp [hq2, hm2])
    (by rw [url.noCTL_append, url.noCTL_cons, hqc, hmc]; decide)
  rw [← huri] at hparse
  have hpathne : h ≠ [] ∨ path ≠ [] := by
    rcases hne with hne | hne
    · exact Or.inl hne
    · right
      rcases hp0 with rfl | hp0
      · exact absurd rfl hne
      · cases p with
        | nil => exact absurd rfl hne
        | cons c t =>
          simp at hp0
          subst hp0
          obtain ⟨path2, rfl⟩ := unescape_slash_cons hpu
          simp
  have hstr := String_of_EscapedPath
    { Scheme := strings.ToLower kindConsul, RawQuery := q, Host := h, Path := path,
      RawPath := if p = url.escape path encodePath then [] else p } p
    (url.ToLower_ne_nil (show kindConsul ≠ [] by decide)) rfl rfl rfl rfl rfl hh hpathne
    (EscapedPath_of_validEncoded _ p path hp0 hpv hpu rfl rfl) hp0
  have hlen : (q.length : Int) + 1 = ((q.length + 1 : Nat) : Int) := by
    push_cast; ring
  unfold ParseServerMethod
  rw [if_pos hcontains]
  unfold consulStrategy
  rw [hparse]
  simp only [ne_eq, hrq, not_false_eq_true, if_true, strings.Index_singleton_append m hq1]
  rw [if_pos (by omega), sliceFrom_of_eq _ _ _ hlen (by simp), sliceTo_nat _ _ (by simp)]
  simp only [Run.done_bind, Run.pure_eq, consulFinish]
  have e1 : List.drop (q.length + 1) (q ++ '/' :: m) = m := by
    simp [List.drop_append]
  have e2 : List.take q.length (q ++ '/' :: m) = q := by
    simp
  rw [e1, e2, if_neg hm0, hstr]
  simp [kindConsul, strings.ToLower, strings.lowerByte]

set_option maxRecDepth 100000 in
/-- C2, amended, at the input of the spec:
"consul://127.0.0.1:8500/grpc-product?tag=wtm_service_grpc_q/product.Product/IntegralProdStockDeduction"
gives the locator "consul://127.0.0.1:8500/grpc-product?tag=wtm_service_grpc_q" and the
method "product.Product/IntegralProdStockDeduction". -/
theorem consul_query_split_witness :
    ParseServerMethod
        ("consul://".toList ++ "127.0.0.1:8500".toList ++ "/grpc-product".toList
          ++ '?' :: "tag=wtm_service_grpc_q".toList
          ++ '/' :: "product.Product/IntegralProdStockDeduction".toList) =
      Run.done ("consul://127.0.0.1:8500/grpc-product?tag=wtm_service_grpc_q".toList,
        "product.Product/IntegralProdStockDeduction".toList, none) :=
  consul_query_split "127.0.0.1:8500".toList "/grpc-product".toList
    "tag=wtm_service_grpc_q".toList "product.Product/IntegralProdStockDeduction".toList
    "/grpc-product".toList
    (by decide) (by rfl) (by decide) (by decide) (by rfl) (by decide) (by decide) (by decide)
    (by decide) (by decide) (by decide) (by decide)

/-! ## The generic strategy -/

set_option maxRecDepth 100000 in
/-- C6 as stated fails: for "etcd://localhost:2379/svc/hello.World/Say" the method
returned by the generic split is "/hello.World/Say", with the path separator, and
not "hello.World/Say". -/
theorem generic_split_keeps_separator :
    ParseServerMethod "etcd://localhost:2379/svc/hello.World/Say".toList =
        Run.done ("etcd://localhost:2379/svc".toList, "/hello.World/Say".toList, none) ∧
    ParseServerMethod "etcd://localhost:2379/svc/hello.World/Say".toList ≠
        Run.done ("etcd://localhost:2379/svc".toList, "hello.World/Say".toList, none) := by
  decide

/-- C6, amended: a URI `scheme://host/key/rest` that contains neither "consul" nor
"nacos", with a scheme name, a host the URL parser accepts and that needs no escaping,
a key without `/`, and key and rest free of `?`, `#`, `%` and ASCII control bytes, is
split into the locator `scheme://host/key` (scheme in lower case) and the method
`/rest`, the path separator included, with a nil error. -/
theorem generic_split (s h k r : Str)
    (hs : url.isSchemeName s = true)
    (hh : ∀ c ∈ h, url.shouldEscape c encodeHost = false)
    (hhost : url.parseHost h = Except.ok h)
    (hks : '/' ∉ k)
    (hk1 : '?' ∉ k) (hk2 : '#' ∉ k) (hk3 : '%' ∉ k)
    (hkc : url.stringContainsCTLByte k = false)
    (hr1 : '?' ∉ r) (hr2 : '#' ∉ r) (hr3 : '%' ∉ r)
    (hrc : url.stringContainsCTLByte r = false)
    (hconsul : strings.Contains (s ++ "://".toList ++ h ++ '/' :: k ++ '/' :: r) kindConsul = false)
    (hnacos : strings.Contains (s ++ "://".toList ++ h ++ '/' :: k ++ '/' :: r) kindNacos = false) :
    ParseServerMethod (s ++ "://".toList ++ h ++ '/' :: k ++ '/' :: r) =
      Run.done (strings.ToLower s ++ "://".toList ++ h ++ '/' :: k, '/' :: r, none) := by
  obtain ⟨hh1, hh2, hh3, hh4, hhc⟩ := host_facts hh
  have huri : s ++ "://".toList ++ h ++ '/' :: k ++ '/' :: r =
      s ++ ':' :: '/' :: '/' :: (h ++ ('/' :: k ++ '/' :: r) ++
        (if ([] : Str) = [] then [] else '?' :: [])) := by
    simp
  have hslash : strings.Contains (s ++ "://".toList ++ h ++ '/' :: k ++ '/' :: r) ['/', '/']
      = true := by
    have := strings.Contains_append_of_isPrefixOf ['/', '/'] (s ++ [':'])
      ('/' :: '/' :: (h ++ '/' :: k ++ '/' :: r)) (by simp [List.isPrefixOf])
    simpa using this
  have hparse := url.Parse_uri s h ('/' :: k ++ '/' :: r) [] h ('/' :: k ++ '/' :: r)
    hs hh1 hh2 hh3 hh4 hhc hhost (Or.inr rfl) (by simp [hk1, hr1]) (by simp [hk2, hr2])
    (by simp only [List.cons_append, url.noCTL_cons, url.noCTL_append, hkc, hrc]; decide)
    (url.unescape_path_of_no_percent (by simp [hk3, hr3])) (by simp) rfl
  rw [← huri] at hparse
  have hlen : (k.length : Int) + 1 = ((k.length + 1 : Nat) : Int) := by
    push_cast; ring
  unfold ParseServerMethod
  rw [if_neg (by rw [hconsul]; exact Bool.false_ne_true),
    if_neg (by rw [hslash]; simp)]
  unfold presplitStrategy presplit
  rw [if_neg (by rw [hconsul, hnacos]; simp)]
  simp only [Run.pure_eq]
  unfold genericStrategy
  rw [hparse]
  simp only []
  rw [sliceFrom_of_eq _ 1 1 rfl (by simp)]
  simp only [Run.done_bind, List.cons_append, List.drop_succ_cons, List.drop_zero,
    strings.IndexByte, strings.Index_singleton_append r hks]
  rw [sliceTo_of_eq _ _ _ hlen (by simp), sliceFrom_of_eq _ _ _ hlen (by simp)]
  simp [List.take_append, List.drop_append]

set_option maxRecDepth 100000 in
/-- C6, amended, at "etcd://localhost:2379/svc/hello.World/Say". -/
theorem generic_split_witness :
    ParseServerMethod ("etcd".toList ++ "://".toList ++ "localhost:2379".toList
        ++ '/' :: "svc".toList ++ '/' :: "hello.World/Say".toList) =
      Run.done ("etcd://localhost:2379/svc".toList, "/hello.World/Say".toList, none) :=
  generic_split "etcd".toList "localhost:2379".toList "svc".toList "hello.World/Say".toList
    (by decide) (by decide) (by rfl) (by decide) (by decide) (by decide) (by decide) (by decide)
    (by decide) (by decide) (by decide) (by decide) (by decide) (by decide)

/-! ## Empty methods and missing methods -/

theorem dropWhile_ne_nil_of_mem {c : Char} {s : Str} (h : c ∈ s) :
    s.dropWhile (· != c) ≠ [] := by
  induction s with
  | nil => simp at h
  | cons x xs ih =>
    by_cases hx : x = c
    · simp [List.dropWhile_cons, hx]
    · rcases List.mem_cons.1 h with e | e
      · exact absurd e.symm hx
      · simpa [List.dropWhile_cons, hx] using ih e

theorem consulFinish_nil_err {u : url.URL} {m server method : Str}
    (h : consulFinish u m = (server, method, none)) : method ≠ [] := by
  unfold consulFinish at h
  split at h
  · simp at h
  · next hm =>
    simp only [Prod.mk.injEq] at h
    rw [← h.2.1]
    exact hm

/-- The consul strategy never returns an empty method with a nil error. -/
theorem consulStrategy_method_ne_nil {uri server method : Str}
    (h : consulStrategy uri = Run.done (server, method, none)) : method ≠ [] := by
  unfold consulStrategy at h
  split at h
  · simp at h
  · next u _ =>
    dsimp only at h
    split at h
    · split at h
      · cases h1 : sliceFrom u.RawQuery (strings.Index u.RawQuery ['/'] + 1) with
        | panic => simp [h1] at h
        | done a =>
          cases h2 : sliceTo u.RawQuery (strings.Index u.RawQuery ['/']) with
          | panic => simp [h1, h2] at h
          | done b =>
            simp only [h1, h2, Run.done_bind, Run.pure_eq, Run.done.injEq] at h
            exact consulFinish_nil_err h
      · simp only [Run.pure_eq, Run.done.injEq] at h
        exact consulFinish_nil_err h
    · split at h
      · simp at h
      · cases h1 : sliceFrom u.Path 1 with
        | panic => simp [h1] at h
        | done t =>
          simp only [h1, Run.done_bind] at h
          split at h
          · cases h2 : sliceFrom u.Path (1 + strings.Index t ['/'] + 1) with
            | panic => simp [h2] at h
            | done a =>
              cases h3 : sliceTo u.Path (1 + strings.Index t ['/']) with
              | panic => simp [h2, h3] at h
              | done b =>
                simp only [h2, h3, Run.done_bind, Run.pure_eq, Run.done.injEq] at h
                exact consulFinish_nil_err h
          · simp only [Run.pure_eq, Run.done.injEq] at h
            exact consulFinish_nil_err h

/-- The schemeless split never returns an empty method with a nil error. -/
theorem schemelessStrategy_method_ne_nil {uri server method : Str}
    (h : schemelessStrategy uri = Run.done (server, method, none)) : method ≠ [] := by
  unfold schemelessStrategy at h
  simp only [strings.IndexByte, strings.Index_singleton] at h
  by_cases hm : '/' ∈ uri
  · have hne : ¬ (((uri.takeWhile (· != '/')).length : Int) = -1) := by omega
    simp only [hm, if_true, hne, if_false] at h
    rw [sliceTo_nat _ _ (length_takeWhile_le _ _), sliceFrom_nat _ _ (length_takeWhile_le _ _)]
      at h
    simp only [Run.done_bind, Run.pure_eq, Run.done.injEq, Prod.mk.injEq,
      drop_length_takeWhile] at h
    rw [← h.2.1]
    exact dropWhile_ne_nil_of_mem hm
  · simp [hm] at h

/-- When the string parses, the generic split returns a non-empty method (or panics). -/
theorem genericStrategy_method_ne_nil {uri server method : Str} {u : url.URL}
    (hp : url.Parse uri = Except.ok u)
    (h : genericStrategy uri = Run.done (server, method, none)) : method ≠ [] := by
  unfold genericStrategy at h
  rw [hp] at h
  simp only [] at h
  unfold sliceFrom at h
  by_cases h1 : 0 ≤ (1 : Int) ∧ (1 : Int) ≤ (u.Path.length : Int)
  · rw [if_pos h1] at h
    simp only [Run.done_bind, strings.IndexByte, strings.Index_singleton] at h
    have hlen : 1 ≤ u.Path.length := by omega
    obtain ⟨x, xs, hx⟩ : ∃ x xs, u.Path = x :: xs := by
      cases hpath : u.Path with
      | nil => simp [hpath] at hlen
      | cons x xs => exact ⟨x, xs, rfl⟩
    rw [hx] at h
    simp only [Int.toNat_one, List.drop_succ_cons, List.drop_zero] at h
    by_cases hm : '/' ∈ xs
    · have h3 := length_takeWhile_le (· != '/') xs
      have hidx : ((xs.takeWhile (· != '/')).length : Int) + 1 =
          (((xs.takeWhile (· != '/')).length + 1 : Nat) : Int) := by push_cast; ring
      simp only [hm, if_true] at h
      rw [hidx] at h
      unfold sliceTo at h
      simp only [List.length_cons, Int.toNat_ofNat] at h
      rw [if_pos (by constructor <;> omega), if_pos (by constructor <;> omega)] at h
      simp only [Run.done_bind, Run.pure_eq, Run.done.injEq, Prod.mk.injEq,
        List.drop_succ_cons, drop_length_takeWhile] at h
      rw [← h.2.1]
      exact dropWhile_ne_nil_of_mem hm
    · simp only [hm, if_false] at h
      unfold sliceTo at h
      simp only [List.length_cons] at h
      rw [if_pos (by constructor <;> omega), if_pos (by constructor <;> omega)] at h
      simp only [Run.done_bind, Run.pure_eq, Run.done.injEq, Prod.mk.injEq] at h
      rw [← h.2.1]
      simp
  · rw [if_neg h1] at h
    simp at h

/-- C4 as stated fails: "etcd://localhost:port/svc/hello.World/Say" does not parse
as a URI (the port is not a number), and the generic strategy answers with an empty
locator, an empty method and a nil error. -/
theorem empty_method_without_error :
    ParseServerMethod "etcd://localhost:port/svc/hello.World/Say".toList =
      Run.done ([], [], none) := by
  decide

/-- C4, amended: when `ParseServerMethod` returns a nil error, the method is not
empty, unless the input went to the generic strategy (it holds "//" and not
"consul") and the string left by the pre-split does not parse as a URI. -/
theorem method_ne_nil_of_no_error (uri server method : Str)
    (h : ParseServerMethod uri = Run.done (server, method, none)) :
    method ≠ [] ∨
      (strings.Contains uri kindConsul = false ∧ strings.Contains uri ['/', '/'] = true ∧
        ∃ uri2 e, presplit uri = Run.done (Except.ok uri2) ∧ url.Parse uri2 = Except.error e) := by
  unfold ParseServerMethod at h
  by_cases hc : strings.Contains uri kindConsul = true
  · rw [if_pos hc] at h
    exact Or.inl (consulStrategy_method_ne_nil h)
  · rw [if_neg hc] at h
    by_cases hs : strings.Contains uri ['/', '/'] = true
    · rw [if_neg (by simp [hs])] at h
      unfold presplitStrategy at h
      split at h
      · simp at h
      · simp at h
      · next uri2 hpre =>
        cases hparse : url.Parse uri2 with
        | error e =>
          exact Or.inr ⟨by simpa using hc, hs, uri2, e, hpre, hparse⟩
        | ok u => exact Or.inl (genericStrategy_method_ne_nil hparse h)
    · rw [if_pos hs] at h
      exact Or.inl (schemelessStrategy_method_ne_nil h)

set_option maxRecDepth 100000 in
/-- C4, amended, at "etcd://localhost:2379/svc/hello.World/Say": the error is nil and
the method "/hello.World/Say" is not empty. -/
theorem method_ne_nil_of_no_error_witness :
    "/hello.World/Say".toList ≠ [] ∨
      (strings.Contains "etcd://localhost:2379/svc/hello.World/Say".toList kindConsul = false ∧
        strings.Contains "etcd://localhost:2379/svc/hello.World/Say".toList ['/', '/'] = true ∧
        ∃ uri2 e, presplit "etcd://localhost:2379/svc/hello.World/Say".toList
            = Run.done (Except.ok uri2) ∧ url.Parse uri2 = Except.error e) :=
  method_ne_nil_of_no_error "etcd://localhost:2379/svc/hello.World/Say".toList
    "etcd://localhost:2379/svc".toList "/hello.World/Say".toList (by decide)

/-- C7: when an input that contains "consul" parses as a URI with an empty query
whose path, after its leading `/`, holds no further `/` or nothing after that `/`,
or with a non-empty query that holds no `/`, the result is an empty locator, an empty
method and a non-nil error ("invalid path" or "gRPC method part missing or empty"). -/
theorem consul_method_missing (uri : Str) (u : url.URL)
    (hc : strings.Contains uri kindConsul = true)
    (hp : url.Parse uri = Except.ok u)
    (h : (u.RawQuery = [] ∧
            ('/' ∉ u.Path.drop 1 ∨ ((u.Path.drop 1).dropWhile (· != '/')).drop 1 = [])) ∨
         (u.RawQuery ≠ [] ∧ '/' ∉ u.RawQuery)) :
    ParseServerMethod uri = Run.done ([], [], some DriverError.invalidPath) ∨
      ParseServerMethod uri = Run.done ([], [], some DriverError.methodMissing) := by
  unfold ParseServerMethod
  rw [if_pos hc]
  unfold consulStrategy
  rw [hp]
  dsimp only
  rcases h with ⟨hq, hpath⟩ | ⟨hq, hs⟩
  · rw [if_neg (by simp [hq])]
    by_cases hbad : u.Path.length = 0 ∨ u.Path.head? ≠ some '/'
    · rw [if_pos hbad]
      exact Or.inl rfl
    · rw [if_neg hbad]
      right
      obtain ⟨x, xs, hx⟩ : ∃ x xs, u.Path = x :: xs := by
        cases hpath2 : u.Path with
        | nil => simp [hpath2] at hbad
        | cons x xs => exact ⟨x, xs, rfl⟩
      rw [hx] at hpath ⊢
      simp only [List.drop_succ_cons, List.drop_zero] at hpath
      rw [sliceFrom_of_eq _ 1 1 rfl (by simp)]
      simp only [Run.done_bind, List.drop_succ_cons, List.drop_zero, strings.Index_singleton]
      by_cases hm : '/' ∈ xs
      · have hpath3 := hpath.resolve_left (fun hn => hn hm)
        have h3 := length_takeWhile_le (· != '/') xs
        have hlen : 1 + ((xs.takeWhile (· != '/')).length : Int) + 1 =
            (((xs.takeWhile (· != '/')).length + 1 + 1 : Nat) : Int) := by push_cast; ring
        have hlen2 : 1 + ((xs.takeWhile (· != '/')).length : Int) =
            (((xs.takeWhile (· != '/')).length + 1 : Nat) : Int) := by push_cast; ring
        have hlt : (xs.takeWhile (· != '/')).length < xs.length := by
          have h4 := dropWhile_ne_nil_of_mem hm
          have h5 := congrArg List.length (List.takeWhile_append_dropWhile (· != '/') xs)
          rw [List.length_append] at h5
          have h6 : 0 < (xs.dropWhile (· != '/')).length := List.length_pos.2 h4
          omega
        simp only [hm, if_true]
        rw [if_pos (by omega), sliceFrom_of_eq _ _ _ hlen (by simp; omega),
          sliceTo_of_eq _ _ _ hlen2 (by simp; omega)]
        simp only [Run.done_bind, Run.pure_eq, List.drop_succ_cons]
        have e : List.drop ((xs.takeWhile (· != '/')).length + 1) xs = [] := by
          rw [← List.drop_drop, drop_length_takeWhile]
          exact hpath3
        rw [e]
        simp [consulFinish]
      · simp [hm, consulFinish]
  · rw [if_pos hq, strings.Index_singleton_of_not_mem hs]
    right
    simp [consulFinish]

set_option maxRecDepth 100000 in
/-- C7, at "consul://localhost:8500/my-api-gateway": no second path segment, the
error is "gRPC method part missing or empty". -/
theorem consul_method_missing_witness :
    ParseServerMethod "consul://localhost:8500/my-api-gateway".toList =
        Run.done ([], [], some DriverError.invalidPath) ∨
      ParseServerMethod "consul://localhost:8500/my-api-gateway".toList =
        Run.done ([], [], some DriverError.methodMissing) :=
  consul_method_missing "consul://localhost:8500/my-api-gateway".toList
    { Scheme := "consul".toList, Host := "localhost:8500".toList,
      Path := "/my-api-gateway".toList }
    (by decide) (by rfl) (Or.inl ⟨by decide, Or.inl (by decide)⟩)

/-! ## The pre-split and parse failures -/

namespace strings

/-- The pieces of `Split`: the text before the first separator, then the pieces of
the text after it. -/
theorem Split_eq (s : Str) (c : Char) :
    Split s c = s.takeWhile (· != c) ::
      (match s.dropWhile (· != c) with
        | [] => []
        | _ :: t => Split t c) := by
  induction s with
  | nil => simp [Split]
  | cons x xs ih =>
    by_cases hx : x = c
    · simp [Split, hx, List.takeWhile_cons, List.dropWhile_cons]
    · rw [Split, if_neg hx, ih]
      simp [List.takeWhile_cons, List.dropWhile_cons, hx]

end strings

/-- C8: for an input that contains "nacos", "//" and `?` but not "consul", let the
prefix be the text before the first `?` and the remainder the text between the first
and the next `?`.  If the remainder holds no `/` the result is a non-nil error;
otherwise it is what the generic split returns for the prefix followed by the
remainder from its first `/` onward. -/
theorem presplit_refines_spec (uri : Str)
    (hnacos : strings.Contains uri kindNacos = true)
    (hconsul : strings.Contains uri kindConsul = false)
    (hslash : strings.Contains uri ['/', '/'] = true)
    (hq : strings.Contains uri ['?'] = true) :
    ParseServerMethod uri =
      match specPresplit uri with
      | some uri2 => genericStrategy uri2
      | none => Run.done ([], [], some (DriverError.noSlashFound uri)) := by
  have hmem : '?' ∈ uri := by simpa [strings.Contains_singleton] using hq
  obtain ⟨y, t, hdrop⟩ : ∃ y t, uri.dropWhile (· != '?') = y :: t := by
    cases hd : uri.dropWhile (· != '?') with
    | nil => exact absurd hd (dropWhile_ne_nil_of_mem hmem)
    | cons y t => exact ⟨y, t, rfl⟩
  have hsplit : strings.Split uri '?' =
      uri.takeWhile (· != '?') :: t.takeWhile (· != '?') ::
        (match t.dropWhile (· != '?') with
          | [] => []
          | _ :: t2 => strings.Split t2 '?') := by
    rw [strings.Split_eq uri '?', hdrop]
    simp only []
    rw [strings.Split_eq t '?']
  unfold ParseServerMethod
  rw [if_neg (by rw [hconsul]; exact Bool.false_ne_true), if_neg (by rw [hslash]; simp)]
  unfold presplitStrategy presplit specPresplit
  rw [if_pos (by rw [hnacos, hq]; simp), hsplit, hdrop]
  simp only [indexAt, List.get?_cons_succ, List.get?_cons_zero, Run.done_bind, List.drop_succ_cons,
    List.drop_zero, strings.IndexByte, strings.Index_singleton]
  by_cases hm : '/' ∈ t.takeWhile (· != '?')
  · have hne : ¬ ((((t.takeWhile (· != '?')).takeWhile (· != '/')).length : Int) = -1) := by
      omega
    simp only [hm, if_true, hne, if_false]
    rw [sliceFrom_nat _ _ (length_takeWhile_le _ _)]
    simp only [Run.done_bind, Run.pure_eq, drop_length_takeWhile]
  · simp [hm]

set_option maxRecDepth 100000 in
/-- C8, at the input of the claim: "nacos://127.0.0.1:8848/svc?namespaceId=ns1/hello.World/Say"
is split as "nacos://127.0.0.1:8848/svc/hello.World/Say" is, the query parameter
being dropped from the locator. -/
theorem presplit_refines_spec_witness :
    specPresplit "nacos://127.0.0.1:8848/svc?namespaceId=ns1/hello.World/Say".toList =
        some "nacos://127.0.0.1:8848/svc/hello.World/Say".toList ∧
    ParseServerMethod "nacos://127.0.0.1:8848/svc?namespaceId=ns1/hello.World/Say".toList =
        ParseServerMethod "nacos://127.0.0.1:8848/svc/hello.World/Say".toList ∧
    ParseServerMethod "nacos://127.0.0.1:8848/svc?namespaceId=ns1/hello.World/Say".toList =
        Run.done ("nacos://127.0.0.1:8848/svc".toList, "/hello.World/Say".toList, none) :=
  ⟨by decide,
    (presplit_refines_spec "nacos://127.0.0.1:8848/svc?namespaceId=ns1/hello.World/Say".toList
      (by decide) (by decide) (by decide) (by decide)).trans (by decide),
    by decide⟩

set_option maxRecDepth 100000 in
/-- C9 as stated fails: "nacos://localhost:port/svc?namespaceId=ns1/hello.World/Say"
goes through the pre-split, the string it leaves,
"nacos://localhost:port/svc/hello.World/Say", does not parse as a URI (the port is
not a number), and `ParseServerMethod` returns a nil error. -/
theorem presplit_parse_failure_not_reported :
    presplit "nacos://localhost:port/svc?namespaceId=ns1/hello.World/Say".toList =
        Run.done (Except.ok "nacos://localhost:port/svc/hello.World/Say".toList) ∧
    url.Parse "nacos://localhost:port/svc/hello.World/Say".toList =
        Except.error { Op := "parse", URL := "nacos://localhost:port/svc/hello.World/Say".toList,
                       Err := url.ParseErr.invalidPort ":port".toList } ∧
    ParseServerMethod "nacos://localhost:port/svc?namespaceId=ns1/hello.World/Say".toList =
        Run.done ([], [], none) :=
  ⟨by rfl, by rfl, by decide⟩

/-- C9, amended: for an input that contains "consul" (the consul-keyword strategy),
if parsing it as a URI fails, `ParseServerMethod` returns that parse error, with an
empty locator and an empty method. -/
theorem consul_parse_error_reported (uri : Str) (e : url.Error)
    (hc : strings.Contains uri kindConsul = true)
    (hp : url.Parse uri = Except.error e) :
    ParseServerMethod uri = Run.done ([], [], some (DriverError.parse e)) := by
  unfold ParseServerMethod
  rw [if_pos hc]
  unfold consulStrategy
  rw [hp]

set_option maxRecDepth 100000 in
/-- C9, amended, at "consul://localhost:port/svc/hello.World/Say": the parse error
"invalid port" is returned. -/
theorem consul_parse_error_reported_witness :
    ParseServerMethod "consul://localhost:port/svc/hello.World/Say".toList =
      Run.done ([], [], some (DriverError.parse
        { Op := "parse", URL := "consul://localhost:port/svc/hello.World/Say".toList,
          Err := url.ParseErr.invalidPort ":port".toList })) :=
  consul_parse_error_reported "consul://localhost:port/svc/hello.World/Say".toList
    { Op := "parse", URL := "consul://localhost:port/svc/hello.World/Say".toList,
      Err := url.ParseErr.invalidPort ":port".toList }
    (by decide) (by rfl)

/-! ## `strconv.ParseUint` and the registration dispatcher -/

namespace strconv

theorem maxUint64_eq : maxUint64 = 18446744073709551615 := by
  norm_num [maxUint64]

theorem le_foldl_digits (s : Str) (n : Nat) :
    n ≤ s.foldl (fun n c => n * 10 + (c.toNat - '0'.toNat)) n := by
  induction s generalizing n with
  | nil => simp
  | cons c cs ih =>
    rw [List.foldl_cons]
    exact le_trans (by omega) (ih _)

/-- The value the digit loop of `ParseUint` returns, started at `n`: the largest
`uint64` as soon as the leading digits overflow, the number read when the text is
all digits, and `0` when a byte that is no digit comes first. -/
theorem parseUintLoop_value (s : Str) (n : Nat) (hn : n ≤ maxUint64) :
    (parseUintLoop s n).1 =
      if (s.takeWhile isDigit).foldl (fun n c => n * 10 + (c.toNat - '0'.toNat)) n > maxUint64
      then maxUint64
      else if s.all isDigit then s.foldl (fun n c => n * 10 + (c.toNat - '0'.toNat)) n
      else 0 := by
  induction s generalizing n with
  | nil =>
    have : ¬ n > maxUint64 := by omega
    simp [parseUintLoop, this]
  | cons c cs ih =>
    rw [parseUintLoop]
    by_cases hd : '0' ≤ c ∧ c ≤ '9'
    · have hdig : isDigit c = true := by simp [isDigit, hd]
      have hge := le_foldl_digits (cs.takeWhile isDigit) (n * 10 + (c.toNat - '0'.toNat))
      rw [if_pos hd]
      simp only [List.takeWhile_cons, hdig, if_true, List.foldl_cons, List.all_cons,
        Bool.true_and]
      rw [maxUint64_eq] at hn ⊢
      by_cases h1 : n ≥ 18446744073709551615 / 10 + 1
      · rw [if_pos h1, if_pos (by omega)]
      · rw [if_neg h1]
        by_cases h2 : n * 10 + (c.toNat - '0'.toNat) > 18446744073709551615
        · rw [if_pos h2, if_pos (by omega)]
        · rw [if_neg h2]
          have := ih (n * 10 + (c.toNat - '0'.toNat)) (by rw [maxUint64_eq]; omega)
          rw [maxUint64_eq] at this
          exact this
    · have hdig : isDigit c = false := by simp [isDigit, hd]
      have : ¬ n > maxUint64 := by omega
      rw [if_neg hd]
      simp [List.takeWhile_cons, hdig, this]

theorem takeWhile_isDigit_of_isDecimal {s : Str} (h : isDecimal s = true) :
    s.takeWhile isDigit = s := by
  simp only [isDecimal, Bool.and_eq_true, List.all_eq_true] at h
  exact List.takeWhile_eq_self_iff.2 h.2

/-- The value `strconv.ParseUint(s, 10, 64)` returns, whatever the error: the largest
`uint64` when the leading digits of `s` overflow, the number `s` denotes when it is a
decimal that fits, and `0` otherwise. -/
theorem ParseUint_value (s : Str) :
    (ParseUint s).1 =
      if decimalValue (s.takeWhile isDigit) > maxUint64 then maxUint64
      else if isDecimal s then decimalValue s
      else 0 := by
  unfold ParseUint
  by_cases hs : s = []
  · subst hs
    simp [decimalValue, isDecimal]
  · rw [if_neg hs, parseUintLoop_value s 0 (Nat.zero_le _)]
    simp [decimalValue, isDecimal, hs]

/-- The same value, with the decimal that fits 64 bits as the first case. -/
theorem ParseUint_value_cases (s : Str) :
    (ParseUint s).1 =
      if isDecimal s = true ∧ decimalValue s ≤ maxUint64 then decimalValue s
      else if decimalValue (s.takeWhile isDigit) > maxUint64 then maxUint64
      else 0 := by
  rw [ParseUint_value]
  by_cases hdec : isDecimal s = true
  · rw [takeWhile_isDigit_of_isDecimal hdec]
    by_cases hfit : decimalValue s ≤ maxUint64
    · have hboth : isDecimal s = true ∧ decimalValue s ≤ maxUint64 := ⟨hdec, hfit⟩
      rw [if_neg (by omega), if_pos hdec, if_pos hboth]
    · have hnot : ¬ (isDecimal s = true ∧ decimalValue s ≤ maxUint64) := fun h => hfit h.2
      have hov : decimalValue s > maxUint64 := by omega
      rw [if_pos hov, if_neg hnot, if_pos hov]
  · have hnot : ¬ (isDecimal s = true ∧ decimalValue s ≤ maxUint64) := fun h => hdec h.1
    rw [if_neg hnot]
    by_cases hov : decimalValue (s.takeWhile isDigit) > maxUint64
    · rw [if_pos hov, if_pos hov]
    · rw [if_neg hov, if_neg hov, if_neg hdec]

end strconv

theorem Parse_nil : url.Parse [] = Except.ok {} := by rfl

/-- A locator whose scheme is "nacos" is handed to the nacos case. -/
theorem RegisterService_nacos (b : Backend) (target endpoint : Str) (u : url.URL)
    (hp : url.Parse target = Except.ok u) (hs : u.Scheme = kindNacos) :
    RegisterService b target endpoint =
      registerNacos b u (url.ParseQuery u.RawQuery) endpoint := by
  have ht : target ≠ [] := by
    rintro rfl
    rw [Parse_nil] at hp
    have := congrArg url.URL.Scheme (Except.ok.inj hp)
    rw [hs] at this
    exact absurd this (by decide)
  unfold RegisterService
  rw [if_neg ht, hp]
  simp only [hs]
  rw [if_neg (by decide), if_neg (by decide), if_pos trivial]

/-- The nacos case for a host that holds a `:`: one registration call, with the
server and client configurations as `RegisterService` computes them. -/
theorem registerNacos_of_colon (b : Backend) (u : url.URL) (query : url.Values)
    (endpoint : Str) (hc : ':' ∈ u.Host) :
    registerNacos b u query endpoint =
      Run.done
        { actions := [Action.nacosRegister (strings.TrimPrefix u.Path ['/']) endpoint
            [{ IpAddr := u.Host.takeWhile (· != ':'),
               Port := (strconv.ParseUint
                (((u.Host.dropWhile (· != ':')).drop 1).takeWhile (· != ':'))).1 }]
            { NamespaceId :=
                if query.Get "namespaceId".toList ≠ [] then query.Get "namespaceId".toList
                else "public".toList,
              TimeoutMs :=
                if query.Get "timeoutMs".toList ≠ [] then
                  (strconv.ParseUint (query.Get "timeoutMs".toList)).1
                else 5000,
              NotLoadCacheAtStart :=
                if query.Get "notLoadCacheAtStart".toList ≠ []
                    ∧ query.Get "notLoadCacheAtStart".toList = "false".toList then false
                else true,
              LogLevel :=
                if query.Get "logLevel".toList ≠ [] then query.Get "logLevel".toList
                else "debug".toList }],
          err := (b.nacosRegisterService (strings.TrimPrefix u.Path ['/']) endpoint
            [{ IpAddr := u.Host.takeWhile (· != ':'),
               Port := (strconv.ParseUint
                (((u.Host.dropWhile (· != ':')).drop 1).takeWhile (· != ':'))).1 }]
            { NamespaceId :=
                if query.Get "namespaceId".toList ≠ [] then query.Get "namespaceId".toList
                else "public".toList,
              TimeoutMs :=
                if query.Get "timeoutMs".toList ≠ [] then
                  (strconv.ParseUint (query.Get "timeoutMs".toList)).1
                else 5000,
              NotLoadCacheAtStart :=
                if query.Get "notLoadCacheAtStart".toList ≠ []
                    ∧ query.Get "notLoadCacheAtStart".toList = "false".toList then false
                else true,
              LogLevel :=
                if query.Get "logLevel".toList ≠ [] then query.Get "logLevel".toList
                else "debug".toList }).map DriverError.backend } := by
  obtain ⟨y, t, hdrop⟩ : ∃ y t, u.Host.dropWhile (· != ':') = y :: t := by
    cases hd : u.Host.dropWhile (· != ':') with
    | nil => exact absurd hd (dropWhile_ne_nil_of_mem hc)
    | cons y t => exact ⟨y, t, rfl⟩
  have hsplit : strings.Split u.Host ':' =
      u.Host.takeWhile (· != ':') :: t.takeWhile (· != ':') ::
        (match t.dropWhile (· != ':') with
          | [] => []
          | _ :: t2 => strings.Split t2 ':') := by
    rw [strings.Split_eq u.Host ':', hdrop]
    simp only []
    rw [strings.Split_eq t ':']
  unfold registerNacos
  simp only [hsplit, hdrop, indexAt, List.get?_cons_succ, List.get?_cons_zero, Run.done_bind,
    Run.pure_eq, List.drop_succ_cons, List.drop_zero]

/-- C11 as stated fails: the empty locator parses as a URI whose scheme, the empty
string, is none of the four recognised ones, and `RegisterService` returns a nil
error for it. -/
theorem empty_locator_has_unknown_scheme_but_no_error :
    (∃ u, url.Parse [] = Except.ok u ∧ u.Scheme ≠ kindEtcd ∧ u.Scheme ≠ kindDiscov ∧
      u.Scheme ≠ kindConsul ∧ u.Scheme ≠ kindNacos) ∧
    RegisterService okBackend [] "127.0.0.1:9000".toList =
      Run.done { actions := [], err := none } :=
  ⟨⟨{}, by rfl, by decide, by decide, by decide, by decide⟩, by decide⟩

/-- C11, amended: for a non-empty locator that parses as a URI whose scheme is none
of "etcd", "discov", "consul", "nacos", `RegisterService` calls no backend and
returns the error "unknown scheme: " followed by the scheme. -/
theorem RegisterService_unknown_scheme (b : Backend) (target endpoint : Str) (u : url.URL)
    (ht : target ≠ [])
    (hp : url.Parse target = Except.ok u)
    (h1 : u.Scheme ≠ kindEtcd) (h2 : u.Scheme ≠ kindDiscov)
    (h3 : u.Scheme ≠ kindConsul) (h4 : u.Scheme ≠ kindNacos) :
    RegisterService b target endpoint =
        Run.done { actions := [], err := some (DriverError.unknownScheme u.Scheme) } ∧
      u.Scheme <:+: unknownSchemeText u.Scheme := by
  constructor
  · unfold RegisterService
    rw [if_neg ht, hp]
    simp only []
    rw [if_neg (by simp [h1, h2]), if_neg h3, if_neg h4]
  · exact (List.suffix_append _ _).isInfix

set_option maxRecDepth 100000 in
/-- C11, amended, at the input of the spec: "foo://host/key" yields the error
"unknown scheme: foo" and no backend call. -/
theorem RegisterService_unknown_scheme_witness :
    RegisterService okBackend "foo://host/key".toList "127.0.0.1:9000".toList =
        Run.done { actions := [], err := some (DriverError.unknownScheme "foo".toList) } ∧
      "foo".toList <:+: unknownSchemeText "foo".toList :=
  RegisterService_unknown_scheme okBackend "foo://host/key".toList "127.0.0.1:9000".toList
    { Scheme := "foo".toList, Host := "host".toList, Path := "/key".toList }
    (by decide) (by rfl) (by decide) (by decide) (by decide) (by decide)

set_option maxRecDepth 100000 in
/-- C13: on "nacos://localhost/my-service", a nacos locator without port,
`RegisterService` panics at `hostPort[1]` instead of returning, whatever the endpoint
and the backends. -/
theorem RegisterService_panics_without_port (b : Backend) (endpoint : Str) :
    RegisterService b "nacos://localhost/my-service".toList endpoint = Run.panic := by
  rfl

set_option maxRecDepth 100000 in
/-- C12 as stated fails: in
"nacos://127.0.0.1:8848/my-service?timeoutMs=18446744073709551616" the timeout is a
valid unsigned decimal, but the client configuration gets `TimeoutMs`
18446744073709551615 (the largest `uint64`), not its decimal value. -/
theorem nacos_timeout_saturates :
    isDecimal "18446744073709551616".toList = true ∧
    decimalValue "18446744073709551616".toList = 18446744073709551616 ∧
    RegisterService okBackend
        "nacos://127.0.0.1:8848/my-service?timeoutMs=18446744073709551616".toList
        "127.0.0.1:9000".toList =
      Run.done
        { actions := [Action.nacosRegister "my-service".toList "127.0.0.1:9000".toList
            [{ IpAddr := "127.0.0.1".toList, Port := 8848 }]
            { NamespaceId := "public".toList, TimeoutMs := 18446744073709551615,
              NotLoadCacheAtStart := true, LogLevel := "debug".toList }],
          err := none } := by
  decide

/-- C12, amended: for a locator that parses as a URI with scheme "nacos" and a `:` in
its host, `RegisterService` makes one nacos registration call whose client
configuration has `NamespaceId` the query's `namespaceId` if non-empty and "public"
otherwise, `LogLevel` the query's `logLevel` if non-empty and "debug" otherwise,
`NotLoadCacheAtStart` false exactly when the query's `notLoadCacheAtStart` is "false",
and `TimeoutMs` 5000 when `timeoutMs` is absent or empty and its decimal value when it
is a decimal number that fits 64 bits. -/
theorem nacos_client_config (b : Backend) (target endpoint : Str) (u : url.URL)
    (hp : url.Parse target = Except.ok u) (hs : u.Scheme = kindNacos) (hc : ':' ∈ u.Host) :
    ∃ key sc cc,
      RegisterService b target endpoint =
        Run.done { actions := [Action.nacosRegister key endpoint sc cc],
                   err := (b.nacosRegisterService key endpoint sc cc).map DriverError.backend } ∧
      cc.NamespaceId =
        (if (url.ParseQuery u.RawQuery).Get "namespaceId".toList ≠ [] then
          (url.ParseQuery u.RawQuery).Get "namespaceId".toList
        else "public".toList) ∧
      cc.LogLevel =
        (if (url.ParseQuery u.RawQuery).Get "logLevel".toList ≠ [] then
          (url.ParseQuery u.RawQuery).Get "logLevel".toList
        else "debug".toList) ∧
      (cc.NotLoadCacheAtStart = false ↔
        (url.ParseQuery u.RawQuery).Get "notLoadCacheAtStart".toList = "false".toList) ∧
      ((url.ParseQuery u.RawQuery).Get "timeoutMs".toList = [] → cc.TimeoutMs = 5000) ∧
      (isDecimal ((url.ParseQuery u.RawQuery).Get "timeoutMs".toList) = true →
        decimalValue ((url.ParseQuery u.RawQuery).Get "timeoutMs".toList) ≤ strconv.maxUint64 →
        cc.TimeoutMs = decimalValue ((url.ParseQuery u.RawQuery).Get "timeoutMs".toList)) := by
  rw [RegisterService_nacos b target endpoint u hp hs, registerNacos_of_colon b u _ endpoint hc]
  refine ⟨_, _, _, rfl, rfl, rfl, ?_, ?_, ?_⟩
  · constructor
    · intro h
      by_contra hne
      dsimp only at h
      rw [if_neg (fun hc => hne hc.2)] at h
      exact Bool.noConfusion h
    · intro h
      dsimp only
      rw [if_pos ⟨by rw [h]; decide, h⟩]
  · intro h
    dsimp only
    rw [if_neg (not_not.2 h)]
  · intro hdec hfit
    have hne : (url.ParseQuery u.RawQuery).Get "timeoutMs".toList ≠ [] := by
      intro h0
      rw [h0] at hdec
      exact absurd hdec (by decide)
    simp only []
    rw [if_pos hne, strconv.ParseUint_value, strconv.takeWhile_isDigit_of_isDecimal hdec,
      if_neg (by omega), if_pos hdec]

set_option maxRecDepth 100000 in
/-- C12, amended, at the input of the spec:
"nacos://127.0.0.1:8848/my-service?namespaceId=ns1&timeoutMs=3000" gives the client
configuration ("ns1", 3000, true, "debug"). -/
theorem nacos_client_config_witness :
    ∃ key sc cc,
      RegisterService okBackend
          "nacos://127.0.0.1:8848/my-service?namespaceId=ns1&timeoutMs=3000".toList
          "127.0.0.1:9000".toList =
        Run.done { actions := [Action.nacosRegister key "127.0.0.1:9000".toList sc cc],
                   err := none } ∧
      cc.NamespaceId = "ns1".toList ∧ cc.TimeoutMs = 3000 ∧
      cc.NotLoadCacheAtStart = true ∧ cc.LogLevel = "debug".toList := by
  obtain ⟨key, sc, cc, h, hns, hll, hnl, _, htd⟩ :=
    nacos_client_config okBackend
      "nacos://127.0.0.1:8848/my-service?namespaceId=ns1&timeoutMs=3000".toList
      "127.0.0.1:9000".toList
      { Scheme := "nacos".toList, Host := "127.0.0.1:8848".toList,
        Path := "/my-service".toList, RawQuery := "namespaceId=ns1&timeoutMs=3000".toList }
      (by rfl) (by decide) (by decide)
  refine ⟨key, sc, cc, h, hns.trans (by decide), (htd (by decide) (by decide)).trans (by decide),
    ?_, hll.trans (by decide)⟩
  cases hv : cc.NotLoadCacheAtStart with
  | true => rfl
  | false => exact absurd (hnl.1 hv) (by decide)

set_option maxRecDepth 100000 in
/-- C15 as stated fails: in "nacos://127.0.0.1:99999999999999999999/my-service" the
port text is a decimal that does not fit 64 bits, and the server configuration gets
the port 18446744073709551615 (the largest `uint64`), not 0. -/
theorem nacos_port_saturates :
    isDecimal "99999999999999999999".toList = true ∧
    ¬ decimalValue "99999999999999999999".toList ≤ strconv.maxUint64 ∧
    RegisterService okBackend "nacos://127.0.0.1:99999999999999999999/my-service".toList
        "127.0.0.1:9000".toList =
      Run.done
        { actions := [Action.nacosRegister "my-service".toList "127.0.0.1:9000".toList
            [{ IpAddr := "127.0.0.1".toList, Port := 18446744073709551615 }]
            { NamespaceId := "public".toList, TimeoutMs := 5000,
              NotLoadCacheAtStart := true, LogLevel := "debug".toList }],
          err := none } := by
  decide

/-- C15, amended: for a locator that parses as a URI with scheme "nacos" and a `:` in
its host, the server configuration handed to the nacos registration call is a
one-element list: its host is the text of the URI host before the first `:`; its port
is the value of the text between the first and the next `:` (or the end) when that
text is a decimal number that fits 64 bits, the largest `uint64` when the leading
digits of that text denote a number that does not fit, and 0 otherwise.  The only
error returned is the one of the registration call. -/
theorem nacos_server_config (b : Backend) (target endpoint : Str) (u : url.URL)
    (hp : url.Parse target = Except.ok u) (hs : u.Scheme = kindNacos) (hc : ':' ∈ u.Host) :
    ∃ key port cc,
      RegisterService b target endpoint =
        Run.done
          { actions := [Action.nacosRegister key endpoint
              [{ IpAddr := u.Host.takeWhile (· != ':'), Port := port }] cc],
            err := (b.nacosRegisterService key endpoint
              [{ IpAddr := u.Host.takeWhile (· != ':'), Port := port }] cc).map
                DriverError.backend } ∧
      port =
        (if isDecimal (((u.Host.dropWhile (· != ':')).drop 1).takeWhile (· != ':')) = true ∧
            decimalValue (((u.Host.dropWhile (· != ':')).drop 1).takeWhile (· != ':'))
              ≤ strconv.maxUint64 then
          decimalValue (((u.Host.dropWhile (· != ':')).drop 1).takeWhile (· != ':'))
        else if decimalValue
            ((((u.Host.dropWhile (· != ':')).drop 1).takeWhile (· != ':')).takeWhile isDigit)
              > strconv.maxUint64 then
          strconv.maxUint64
        else 0) := by
  rw [RegisterService_nacos b target endpoint u hp hs, registerNacos_of_colon b u _ endpoint hc]
  exact ⟨_, _, _, rfl, strconv.ParseUint_value_cases _⟩

set_option maxRecDepth 100000 in
/-- C15, amended, at "nacos://127.0.0.1:8848/my-service": host "127.0.0.1", port 8848. -/
theorem nacos_server_config_witness :
    ∃ key cc,
      RegisterService okBackend "nacos://127.0.0.1:8848/my-service".toList
          "127.0.0.1:9000".toList =
        Run.done
          { actions := [Action.nacosRegister key "127.0.0.1:9000".toList
              [{ IpAddr := "127.0.0.1".toList, Port := 8848 }] cc],
            err := none } := by
  obtain ⟨key, port, cc, h, hport⟩ :=
    nacos_server_config okBackend "nacos://127.0.0.1:8848/my-service".toList
      "127.0.0.1:9000".toList
      { Scheme := "nacos".toList, Host := "127.0.0.1:8848".toList,
        Path := "/my-service".toList }
      (by rfl) (by decide) (by decide)
  have hp : port = 8848 := hport.trans (by decide)
  subst hp
  exact ⟨key, cc, h⟩

set_option maxRecDepth 100000 in
/-- C18 as stated fails: in
"nacos://127.0.0.1:8848/my-service?timeoutMs=99999999999999999999" the timeout is not
a decimal that fits 64 bits, and the client configuration gets `TimeoutMs`
18446744073709551615 (the largest `uint64`), not 0. -/
theorem nacos_bad_timeout_not_zero :
    ¬ decimalValue "99999999999999999999".toList ≤ strconv.maxUint64 ∧
    RegisterService okBackend
        "nacos://127.0.0.1:8848/my-service?timeoutMs=99999999999999999999".toList
        "127.0.0.1:9000".toList =
      Run.done
        { actions := [Action.nacosRegister "my-service".toList "127.0.0.1:9000".toList
            [{ IpAddr := "127.0.0.1".toList, Port := 8848 }]
            { NamespaceId := "public".toList, TimeoutMs := 18446744073709551615,
              NotLoadCacheAtStart := true, LogLevel := "debug".toList }],
          err := none } := by
  decide

/-- C18, amended: for a locator that parses as a URI with scheme "nacos" and a `:` in
its host, whose query has a non-empty `timeoutMs` that is not a decimal number fitting
64 bits, the client configuration's `TimeoutMs` is the largest `uint64` when the
leading digits of the value denote a number that does not fit 64 bits and 0
otherwise, never the default 5000; the only error returned is the one of the
registration call. -/
theorem nacos_malformed_timeout (b : Backend) (target endpoint : Str) (u : url.URL)
    (hp : url.Parse target = Except.ok u) (hs : u.Scheme = kindNacos) (hc : ':' ∈ u.Host)
    (hne : (url.ParseQuery u.RawQuery).Get "timeoutMs".toList ≠ [])
    (hbad : ¬ (isDecimal ((url.ParseQuery u.RawQuery).Get "timeoutMs".toList) = true ∧
      decimalValue ((url.ParseQuery u.RawQuery).Get "timeoutMs".toList) ≤ strconv.maxUint64)) :
    ∃ key sc cc,
      RegisterService b target endpoint =
        Run.done { actions := [Action.nacosRegister key endpoint sc cc],
                   err := (b.nacosRegisterService key endpoint sc cc).map DriverError.backend } ∧
      cc.TimeoutMs =
        (if decimalValue (((url.ParseQuery u.RawQuery).Get "timeoutMs".toList).takeWhile isDigit)
            > strconv.maxUint64 then strconv.maxUint64 else 0) ∧
      cc.TimeoutMs ≠ 5000 := by
  rw [RegisterService_nacos b target endpoint u hp hs, registerNacos_of_colon b u _ endpoint hc]
  have hval : (if (url.ParseQuery u.RawQuery).Get "timeoutMs".toList ≠ [] then
        (strconv.ParseUint ((url.ParseQuery u.RawQuery).Get "timeoutMs".toList)).1
      else 5000) =
      (if decimalValue (((url.ParseQuery u.RawQuery).Get "timeoutMs".toList).takeWhile isDigit)
          > strconv.maxUint64 then strconv.maxUint64 else 0) := by
    rw [if_pos hne, strconv.ParseUint_value]
    by_cases hov : decimalValue
        (((url.ParseQuery u.RawQuery).Get "timeoutMs".toList).takeWhile isDigit)
          > strconv.maxUint64
    · rw [if_pos hov, if_pos hov]
    · rw [if_neg hov, if_neg hov]
      by_cases hdec : isDecimal ((url.ParseQuery u.RawQuery).Get "timeoutMs".toList) = true
      · exfalso
        apply hbad
        rw [strconv.takeWhile_isDigit_of_isDecimal hdec] at hov
        exact ⟨hdec, by omega⟩
      · rw [if_neg hdec]
  refine ⟨_, _, _, rfl, hval, ?_⟩
  dsimp only
  rw [hval, strconv.maxUint64_eq]
  split <;> omega

set_option maxRecDepth 100000 in
/-- C18, amended, at "nacos://127.0.0.1:8848/my-service?timeoutMs=5s": `TimeoutMs`
is 0. -/
theorem nacos_malformed_timeout_witness :
    ∃ key sc cc,
      RegisterService okBackend "nacos://127.0.0.1:8848/my-service?timeoutMs=5s".toList
          "127.0.0.1:9000".toList =
        Run.done { actions := [Action.nacosRegister key "127.0.0.1:9000".toList sc cc],
                   err := none } ∧
      cc.TimeoutMs = 0 := by
  obtain ⟨key, sc, cc, h, ht, _⟩ :=
    nacos_malformed_timeout okBackend "nacos://127.0.0.1:8848/my-service?timeoutMs=5s".toList
      "127.0.0.1:9000".toList
      { Scheme := "nacos".toList, Host := "127.0.0.1:8848".toList,
        Path := "/my-service".toList, RawQuery := "timeoutMs=5s".toList }
      (by rfl) (by decide) (by decide) (by decide) (by decide)
  exact ⟨key, sc, cc, h, ht.trans (by decide)⟩

/-! ## The generic strategy: parse failures and losslessness -/

theorem head_dropWhile_of_mem {c : Char} {s : Str} (h : c ∈ s) :
    (s.dropWhile (· != c)).head? = some c := by
  induction s with
  | nil => simp at h
  | cons x xs ih =>
    by_cases hx : x = c
    · simp [List.dropWhile_cons, hx]
    · rcases List.mem_cons.1 h with e | e
      · exact absurd e.symm hx
      · simpa [List.dropWhile_cons, hx] using ih e

/-- An input without "consul" and with "//" is handed to the generic split, after the
pre-split. -/
theorem ParseServerMethod_generic (uri uri2 : Str)
    (hconsul : strings.Contains uri kindConsul = false)
    (hslash : strings.Contains uri ['/', '/'] = true)
    (hpre : presplit uri = Run.done (Except.ok uri2)) :
    ParseServerMethod uri = genericStrategy uri2 := by
  unfold ParseServerMethod
  rw [if_neg (by rw [hconsul]; exact Bool.false_ne_true), if_neg (by rw [hslash]; simp)]
  unfold presplitStrategy
  rw [hpre]

set_option maxRecDepth 100000 in
/-- C14 as stated fails: "nacos://127.0.0.1:8848/svc?a=\tb/pkg.S/M" (a tab in the
query) reaches the generic strategy and does not parse as a URI, yet the pre-split
cuts the tab out and the result is the locator "nacos://127.0.0.1:8848/svc" and the
method "/pkg.S/M", not two empty strings. -/
theorem generic_input_parse_failure_not_empty :
    strings.Contains "nacos://127.0.0.1:8848/svc?a=\tb/pkg.S/M".toList ['/', '/'] = true ∧
    strings.Contains "nacos://127.0.0.1:8848/svc?a=\tb/pkg.S/M".toList kindConsul = false ∧
    url.Parse "nacos://127.0.0.1:8848/svc?a=\tb/pkg.S/M".toList =
      Except.error { Op := "parse", URL := "nacos://127.0.0.1:8848/svc?a=\tb/pkg.S/M".toList,
                     Err := url.ParseErr.invalidControlCharacter } ∧
    ParseServerMethod "nacos://127.0.0.1:8848/svc?a=\tb/pkg.S/M".toList =
      Run.done ("nacos://127.0.0.1:8848/svc".toList, "/pkg.S/M".toList, none) :=
  ⟨by decide, by decide, by rfl, by decide⟩

/-- C14, amended: an input that reaches the generic strategy (it holds "//" and not "consul",
and the pre-split does not reject it) and whose string, as the pre-split leaves it,
fails to parse as a URI, gives the empty locator, the empty method and a nil error. -/
theorem generic_parse_failure_permissive (uri uri2 : Str) (e : url.Error)
    (hconsul : strings.Contains uri kindConsul = false)
    (hslash : strings.Contains uri ['/', '/'] = true)
    (hpre : presplit uri = Run.done (Except.ok uri2))
    (hp : url.Parse uri2 = Except.error e) :
    ParseServerMethod uri = Run.done ([], [], none) := by
  rw [ParseServerMethod_generic uri uri2 hconsul hslash hpre]
  unfold genericStrategy
  rw [hp]

set_option maxRecDepth 100000 in
/-- C14, amended, at "etcd://[::1/svc/hello.World/Say", whose host lacks the closing bracket. -/
theorem generic_parse_failure_permissive_witness :
    ParseServerMethod "etcd://[::1/svc/hello.World/Say".toList = Run.done ([], [], none) :=
  generic_parse_failure_permissive "etcd://[::1/svc/hello.World/Say".toList
    "etcd://[::1/svc/hello.World/Say".toList
    { Op := "parse", URL := "etcd://[::1/svc/hello.World/Say".toList,
      Err := url.ParseErr.missingBracketInHost }
    (by decide) (by decide) (by rfl) (by rfl)

set_option maxRecDepth 100000 in
/-- C16 as stated fails: "nacos://127.0.0.1:8848/my-service?namespaceId=ns1/hello.World/Say"
reaches the generic strategy and parses as a URI with the single-segment path
"/my-service", yet the result is the locator "nacos://127.0.0.1:8848/my-service" and
the method "/hello.World/Say": their concatenation is not scheme, "://", host and
path of the parsed input, and the method is not the whole path. -/
theorem generic_split_not_lossless_on_input :
    url.Parse "nacos://127.0.0.1:8848/my-service?namespaceId=ns1/hello.World/Say".toList =
      Except.ok { Scheme := "nacos".toList, Host := "127.0.0.1:8848".toList,
                  Path := "/my-service".toList,
                  RawQuery := "namespaceId=ns1/hello.World/Say".toList } ∧
    ParseServerMethod "nacos://127.0.0.1:8848/my-service?namespaceId=ns1/hello.World/Say".toList =
      Run.done ("nacos://127.0.0.1:8848/my-service".toList, "/hello.World/Say".toList, none) ∧
    "nacos://127.0.0.1:8848/my-service".toList ++ "/hello.World/Say".toList ≠
      "nacos".toList ++ "://".toList ++ "127.0.0.1:8848".toList ++ "/my-service".toList :=
  ⟨by rfl, by decide, by decide⟩

/-- C16, amended: for an input that reaches the generic strategy and whose string, as the
pre-split leaves it, parses as a URI with a non-empty path, the error is nil and the
locator followed by the method is scheme, "://", host and path of the parsed URI.
When the path holds a `/` after its first byte the method begins with `/`; when it
does not, the locator is scheme, "://" and host and the method is the whole path. -/
theorem generic_split_lossless (uri uri2 : Str) (u : url.URL)
    (hconsul : strings.Contains uri kindConsul = false)
    (hslash : strings.Contains uri ['/', '/'] = true)
    (hpre : presplit uri = Run.done (Except.ok uri2))
    (hp : url.Parse uri2 = Except.ok u)
    (hne : u.Path ≠ []) :
    ∃ server method,
      ParseServerMethod uri = Run.done (server, method, none) ∧
      server ++ method = u.Scheme ++ "://".toList ++ u.Host ++ u.Path ∧
      ('/' ∈ u.Path.drop 1 → method.head? = some '/') ∧
      ('/' ∉ u.Path.drop 1 → server = u.Scheme ++ "://".toList ++ u.Host ∧ method = u.Path) := by
  rw [ParseServerMethod_generic uri uri2 hconsul hslash hpre]
  unfold genericStrategy
  rw [hp]
  obtain ⟨x, xs, hx⟩ : ∃ x xs, u.Path = x :: xs := by
    cases hpath : u.Path with
    | nil => exact absurd hpath hne
    | cons x xs => exact ⟨x, xs, rfl⟩
  simp only [hx]
  rw [sliceFrom_of_eq _ 1 1 rfl (by simp)]
  simp only [Run.done_bind, List.drop_succ_cons, List.drop_zero, strings.IndexByte,
    strings.Index_singleton]
  by_cases hm : '/' ∈ xs
  · have h3 := length_takeWhile_le (· != '/') xs
    have hidx : ((xs.takeWhile (· != '/')).length : Int) + 1 =
        (((xs.takeWhile (· != '/')).length + 1 : Nat) : Int) := by push_cast; ring
    simp only [hm, if_true]
    rw [sliceTo_of_eq _ _ _ hidx (by simp; omega), sliceFrom_of_eq _ _ _ hidx (by simp; omega)]
    simp only [Run.done_bind, Run.pure_eq, List.drop_succ_cons, drop_length_takeWhile]
    refine ⟨_, _, rfl, ?_, ?_, ?_⟩
    · rw [List.append_assoc, List.take_succ_cons, take_length_takeWhile, List.cons_append,
        List.takeWhile_append_dropWhile]
    · intro _
      exact head_dropWhile_of_mem hm
    · intro hn
      exact absurd trivial hn
  · have h0 : (-1 : Int) + 1 = ((0 : Nat) : Int) := by norm_num
    simp only [hm, if_false]
    rw [sliceTo_of_eq _ _ _ h0 (by simp), sliceFrom_of_eq _ _ _ h0 (by simp)]
    simp only [Run.done_bind, Run.pure_eq, List.take_zero, List.drop_zero, List.append_nil]
    refine ⟨_, _, rfl, rfl, ?_, ?_⟩
    · intro hy
      exact hy.elim
    · intro _
      exact ⟨rfl, rfl⟩

set_option maxRecDepth 100000 in
/-- C16, amended, at "etcd://localhost:2379/svc", a path with a single segment: the locator is
"etcd://localhost:2379" and the method is the whole path "/svc". -/
theorem generic_split_lossless_witness :
    ∃ server method,
      ParseServerMethod "etcd://localhost:2379/svc".toList = Run.done (server, method, none) ∧
      server = "etcd://localhost:2379".toList ∧ method = "/svc".toList := by
  obtain ⟨server, method, h, _, _, hsingle⟩ :=
    generic_split_lossless "etcd://localhost:2379/svc".toList "etcd://localhost:2379/svc".toList
      { Scheme := "etcd".toList, Host := "localhost:2379".toList, Path := "/svc".toList }
      (by decide) (by decide) (by rfl) (by rfl) (by decide)
  exact ⟨server, method, h, (hsingle (by decide)).1.trans (by decide), (hsingle (by decide)).2⟩

/-! ## Keyword detection -/

namespace strings

/-- `Contains` is the infix relation on lists. -/
theorem Contains_iff_infix (s substr : Str) : Contains s substr = true ↔ substr <:+: s := by
  unfold Contains
  induction s with
  | nil =>
    cases substr with
    | nil => simp [indexOpt]
    | cons x xs => simp [indexOpt]
  | cons c cs ih =>
    rw [indexOpt, List.infix_cons_iff, ← ih, ← List.isPrefixOf_iff_prefix]
    by_cases hp : substr.isPrefixOf (c :: cs) = true
    · simp [hp]
    · simp only [hp, Bool.false_eq_true, if_false, false_or]
      cases indexOpt substr cs <;> simp

theorem prefix_of_prefix_append_cons {substr a b : Str} {c : Char} (hc : c ∉ substr)
    (h : substr <+: a ++ c :: b) : substr <+: a := by
  have h2 : a ++ [c] <+: a ++ c :: b := by simp
  rcases List.prefix_or_prefix_of_prefix h h2 with h3 | h3
  · rcases List.prefix_concat_iff.1 (by simpa using h3) with h4 | h4
    · exact absurd (h4 ▸ (by simp) : c ∈ substr) hc
    · exact h4
  · exact absurd (h3.subset (by simp)) hc

theorem infix_append_cons {substr a b : Str} {c : Char} (hc : c ∉ substr)
    (h : substr <:+: a ++ c :: b) : substr <:+: a ∨ substr <:+: b := by
  induction a with
  | nil =>
    rw [List.nil_append, List.infix_cons_iff] at h
    rcases h with h | h
    · left
      have := prefix_of_prefix_append_cons (a := []) hc (by simpa using h)
      exact this.isInfix
    · exact Or.inr h
  | cons x xs ih =>
    rw [List.cons_append, List.infix_cons_iff] at h
    rcases h with h | h
    · left
      exact (prefix_of_prefix_append_cons (a := x :: xs) hc (by simpa using h)).isInfix
    · rcases ih h with h2 | h2
      · exact Or.inl (h2.trans (List.infix_cons (List.infix_refl xs)))
      · exact Or.inr h2

/-- A substring without the byte `c` lies on one side of a `c`. -/
theorem Contains_append_cons (substr a b : Str) (c : Char) (hc : c ∉ substr) :
    Contains (a ++ c :: b) substr = (Contains a substr || Contains b substr) := by
  rw [Bool.eq_iff_iff, Bool.or_eq_true, Contains_iff_infix, Contains_iff_infix,
    Contains_iff_infix]
  constructor
  · exact infix_append_cons hc
  · rintro (h | h)
    · exact h.trans (List.infix_append' [] a (c :: b) |>.trans (by simp))
    · exact h.trans ((List.suffix_cons c b).isInfix.trans (List.suffix_append a _).isInfix)

end strings

/-- The consul strategy on `scheme://h/k/m` with a plain host and path: the locator
is `scheme://h/k` and the method is `m`. -/
theorem consulStrategy_uri (s h k m : Str)
    (hs : url.isSchemeName s = true)
    (hh : ∀ c ∈ h, url.shouldEscape c encodeHost = false)
    (hhost : url.parseHost h = Except.ok h)
    (hk : ∀ c ∈ k, url.shouldEscape c encodePath = false)
    (hks : '/' ∉ k)
    (hm : ∀ c ∈ m, url.shouldEscape c encodePath = false)
    (hm0 : m ≠ []) :
    consulStrategy (s ++ "://".toList ++ h ++ '/' :: k ++ '/' :: m) =
      Run.done (strings.ToLower s ++ "://".toList ++ h ++ '/' :: k, m, none) := by
  obtain ⟨hh1, hh2, hh3, hh4, hhc⟩ := host_facts hh
  have hp := plain_path_join hk hm
  obtain ⟨hp1, hp2, hp3, hpc⟩ := path_facts hp
  have hsne : s ≠ [] := by
    rintro rfl
    simp [url.isSchemeName] at hs
  have huri : s ++ "://".toList ++ h ++ '/' :: k ++ '/' :: m =
      s ++ ':' :: '/' :: '/' :: (h ++ ('/' :: k ++ '/' :: m) ++
        (if ([] : Str) = [] then [] else '?' :: [])) := by
    simp
  have hparse := url.Parse_uri s h ('/' :: k ++ '/' :: m) [] h ('/' :: k ++ '/' :: m)
    hs hh1 hh2 hh3 hh4 hhc hhost (Or.inr rfl) hp1 hp2 hpc
    (url.unescape_path_of_no_percent hp3) (by simp) rfl
  rw [← huri, url.escape_of_plain (by decide) hp] at hparse
  have hkplain : ∀ c ∈ '/' :: k, url.shouldEscape c encodePath = false := by
    intro c hc
    rcases List.mem_cons.1 hc with rfl | hc
    · decide
    · exact hk c hc
  have hstr := url.String_simple (strings.ToLower s) h ('/' :: k) []
    (url.ToLower_ne_nil hsne) (Or.inr (by simp)) hh hkplain (Or.inr rfl)
  have hlen : 1 + (k.length : Int) + 1 = ((k.length + 2 : Nat) : Int) := by
    push_cast; ring
  have hlen2 : 1 + (k.length : Int) = ((k.length + 1 : Nat) : Int) := by
    push_cast; ring
  unfold consulStrategy
  rw [hparse]
  simp only [ne_eq, not_true_eq_false, if_false, if_true]
  rw [if_neg (by simp)]
  rw [sliceFrom_of_eq _ 1 1 rfl (by simp)]
  simp only [Run.done_bind, List.cons_append, List.drop_succ_cons, List.drop_zero,
    strings.Index_singleton_append m hks]
  rw [if_pos (by omega), sliceFrom_of_eq _ _ _ hlen (by simp), sliceTo_of_eq _ _ _ hlen2 (by simp)]
  simp only [Run.done_bind, Run.pure_eq, consulFinish, hm0, if_false]
  have e1 : List.drop (k.length + 2) ('/' :: (k ++ '/' :: m)) = m := by
    simp [List.drop_succ_cons, List.drop_append]
  have e2 : List.take (k.length + 1) ('/' :: (k ++ '/' :: m)) = '/' :: k := by
    simp [List.take_succ_cons, List.take_append]
  rw [e1, e2]
  have hstr2 : url.URL.String
      { Scheme := strings.ToLower s, RawQuery := [], Host := h, Path := '/' :: k,
        RawPath := if True then [] else '/' :: (k ++ '/' :: m) } =
      strings.ToLower s ++ "://".toList ++ h ++ '/' :: k := by
    simpa using hstr
  simpa [hm0] using hstr2

/-- The generic split on `scheme://h/k/m` with a plain host and path: the locator is
`scheme://h/k` and the method is `/m`. -/
theorem genericStrategy_uri (s h k m : Str)
    (hs : url.isSchemeName s = true)
    (hh : ∀ c ∈ h, url.shouldEscape c encodeHost = false)
    (hhost : url.parseHost h = Except.ok h)
    (hk : ∀ c ∈ k, url.shouldEscape c encodePath = false)
    (hks : '/' ∉ k)
    (hm : ∀ c ∈ m, url.shouldEscape c encodePath = false) :
    genericStrategy (s ++ "://".toList ++ h ++ '/' :: k ++ '/' :: m) =
      Run.done (strings.ToLower s ++ "://".toList ++ h ++ '/' :: k, '/' :: m, none) := by
  obtain ⟨hh1, hh2, hh3, hh4, hhc⟩ := host_facts hh
  have hp := plain_path_join hk hm
  obtain ⟨hp1, hp2, hp3, hpc⟩ := path_facts hp
  have huri : s ++ "://".toList ++ h ++ '/' :: k ++ '/' :: m =
      s ++ ':' :: '/' :: '/' :: (h ++ ('/' :: k ++ '/' :: m) ++
        (if ([] : Str) = [] then [] else '?' :: [])) := by
    simp
  have hparse := url.Parse_uri s h ('/' :: k ++ '/' :: m) [] h ('/' :: k ++ '/' :: m)
    hs hh1 hh2 hh3 hh4 hhc hhost (Or.inr rfl) hp1 hp2 hpc
    (url.unescape_path_of_no_percent hp3) (by simp) rfl
  rw [← huri] at hparse
  have hlen : (k.length : Int) + 1 = ((k.length + 1 : Nat) : Int) := by
    push_cast; ring
  unfold genericStrategy
  rw [hparse]
  simp only []
  rw [sliceFrom_of_eq _ 1 1 rfl (by simp)]
  simp only [Run.done_bind, List.cons_append, List.drop_succ_cons, List.drop_zero,
    strings.IndexByte, strings.Index_singleton_append m hks]
  rw [sliceTo_of_eq _ _ _ hlen (by simp), sliceFrom_of_eq _ _ _ hlen (by simp)]
  simp [List.take_append, List.drop_append]

set_option maxRecDepth 100000 in
/-- C17 as stated fails: for the scheme "discov", the host "localhost:port", the key
"svc" and the method "hello.World/Say", none of whose bytes needs escaping and none
holding "consul", the URI does not parse (the port is not a number) and the result
is an empty locator and an empty method with a nil error. -/
theorem keyword_split_bad_port :
    (∀ c ∈ "localhost:port".toList, url.shouldEscape c encodeHost = false) ∧
    strings.Contains "localhost:port".toList kindConsul = false ∧
    strings.Contains "svc".toList kindConsul = false ∧
    strings.Contains "hello.World/Say".toList kindConsul = false ∧
    ParseServerMethod ("discov".toList ++ "://".toList ++ "localhost:port".toList
        ++ '/' :: "svc".toList ++ '/' :: "hello.World/Say".toList) =
      Run.done ([], [], none) := by
  decide

/-- C17, amended: for a scheme among "etcd", "discov", "nacos", a host the URL parser
accepts as it is, a key without `/` and a non-empty method `m`, none of whose bytes
needs escaping, the locator returned for `s://h/k/m` is `s://h/k`; the method is `m`
when "consul" occurs in `h`, `k` or `m`, and `/m` when it does not. -/
theorem keyword_changes_method (s h k m : Str)
    (hs : s = kindEtcd ∨ s = kindDiscov ∨ s = kindNacos)
    (hh : ∀ c ∈ h, url.shouldEscape c encodeHost = false)
    (hhost : url.parseHost h = Except.ok h)
    (hk : ∀ c ∈ k, url.shouldEscape c encodePath = false)
    (hks : '/' ∉ k)
    (hm : ∀ c ∈ m, url.shouldEscape c encodePath = false)
    (hm0 : m ≠ []) :
    ParseServerMethod (s ++ "://".toList ++ h ++ '/' :: k ++ '/' :: m) =
      if strings.Contains h kindConsul = true ∨ strings.Contains k kindConsul = true ∨
          strings.Contains m kindConsul = true then
        Run.done (s ++ "://".toList ++ h ++ '/' :: k, m, none)
      else Run.done (s ++ "://".toList ++ h ++ '/' :: k, '/' :: m, none) := by
  have hsn : url.isSchemeName s = true := by
    rcases hs with rfl | rfl | rfl <;> decide
  have hlow : strings.ToLower s = s := by
    rcases hs with rfl | rfl | rfl <;> decide
  have hsc : strings.Contains s kindConsul = false := by
    rcases hs with rfl | rfl | rfl <;> decide
  have hsq : '?' ∉ s := by
    rcases hs with rfl | rfl | rfl <;> decide
  obtain ⟨hh1, hh2, hh3, hh4, hhc⟩ := host_facts hh
  obtain ⟨hp1, hp2, hp3, hpc⟩ := path_facts (plain_path_join hk hm)
  have hshape : s ++ "://".toList ++ h ++ '/' :: k ++ '/' :: m =
      s ++ ':' :: ([] ++ '/' :: ([] ++ '/' :: (h ++ '/' :: (k ++ '/' :: m)))) := by
    simp
  have hnil : strings.Contains [] kindConsul = false := by decide
  have hcontains : strings.Contains (s ++ "://".toList ++ h ++ '/' :: k ++ '/' :: m) kindConsul =
      (strings.Contains h kindConsul || (strings.Contains k kindConsul ||
        strings.Contains m kindConsul)) := by
    rw [hshape, strings.Contains_append_cons _ _ _ ':' (by decide),
      strings.Contains_append_cons _ _ _ '/' (by decide),
      strings.Contains_append_cons _ _ _ '/' (by decide),
      strings.Contains_append_cons _ _ _ '/' (by decide),
      strings.Contains_append_cons _ _ _ '/' (by decide), hsc, hnil]
    simp
  have hslash : strings.Contains (s ++ "://".toList ++ h ++ '/' :: k ++ '/' :: m) ['/', '/']
      = true := by
    have := strings.Contains_append_of_isPrefixOf ['/', '/'] (s ++ [':'])
      ('/' :: '/' :: (h ++ '/' :: k ++ '/' :: m)) (by simp [List.isPrefixOf])
    simpa using this
  have hquery : strings.Contains (s ++ "://".toList ++ h ++ '/' :: k ++ '/' :: m) ['?']
      = false := by
    rw [strings.Contains_singleton]
    simp [hsq, hh2, url.not_mem_of_plain '?' (by decide) hk,
      url.not_mem_of_plain '?' (by decide) hm]
  unfold ParseServerMethod
  by_cases hc : strings.Contains h kindConsul = true ∨ strings.Contains k kindConsul = true ∨
      strings.Contains m kindConsul = true
  · have : strings.Contains (s ++ "://".toList ++ h ++ '/' :: k ++ '/' :: m) kindConsul
        = true := by
      rw [hcontains]
      rcases hc with hc | hc | hc <;> simp [hc]
    rw [if_pos this, if_pos hc, consulStrategy_uri s h k m hsn hh hhost hk hks hm hm0, hlow]
  · have : strings.Contains (s ++ "://".toList ++ h ++ '/' :: k ++ '/' :: m) kindConsul
        = false := by
      rw [hcontains]
      simp only [not_or, Bool.not_eq_true] at hc
      simp [hc.1, hc.2.1, hc.2.2]
    rw [if_neg (by rw [this]; exact Bool.false_ne_true), if_neg (by rw [hslash]; simp),
      if_neg hc]
    unfold presplitStrategy presplit
    rw [if_neg (by rw [hquery]; simp)]
    simp only [Run.pure_eq]
    rw [genericStrategy_uri s h k m hsn hh hhost hk hks hm, hlow]

set_option maxRecDepth 100000 in
/-- C17, amended, at "etcd://consul-proxy:2379/svc/hello.World/Say", where "consul" occurs in
the host, and at "etcd://localhost:2379/svc/hello.World/Say", where it does not: the
method is "hello.World/Say" for the first and "/hello.World/Say" for the second. -/
theorem keyword_changes_method_witness :
    ParseServerMethod ("etcd".toList ++ "://".toList ++ "consul-proxy:2379".toList
        ++ '/' :: "svc".toList ++ '/' :: "hello.World/Say".toList) =
      Run.done ("etcd://consul-proxy:2379/svc".toList, "hello.World/Say".toList, none) ∧
    ParseServerMethod ("etcd".toList ++ "://".toList ++ "localhost:2379".toList
        ++ '/' :: "svc".toList ++ '/' :: "hello.World/Say".toList) =
      Run.done ("etcd://localhost:2379/svc".toList, "/hello.World/Say".toList, none) :=
  ⟨(keyword_changes_method "etcd".toList "consul-proxy:2379".toList "svc".toList
      "hello.World/Say".toList (Or.inl (by decide)) (by decide) (by rfl) (by decide)
      (by decide) (by decide) (by decide)).trans (by decide),
    (keyword_changes_method "etcd".toList "localhost:2379".toList "svc".toList
      "hello.World/Say".toList (Or.inl (by decide)) (by decide) (by rfl) (by decide)
      (by decide) (by decide) (by decide)).trans (by decide)⟩

end GoZero
